/-
Verification of the HoD Archive job-submission driver (`hodarchive.py`).

The Python module reads job definitions from a CSV, submits each to a remote
archive service, keeps an in-flight working set (a `deque`), and sweeps the
set to retire jobs whose polled status is terminal (`complete` / `error`).

This file gives a shallow embedding of the module's functions:
  * remote interaction (the `requests` calls inside `post` and `get_status`)
    is modelled by per-job scripts of responses (`RemoteResp`), consumed in
    order by successive calls;
  * Python exceptions are modelled by the `RunResult` sum (`.raised`);
    only `requests.HTTPError` is caught by the driver's `except` clause,
    mirrored exactly by matching on the `.http` constructor;
  * `print` side effects are modelled as an accumulated `List Event` trace;
  * the two unbounded loops (`while True` in `post_with_retry`, the drain
    `while jobs_in_progress`) are modelled by script exhaustion (`none`)
    and an explicit fuel parameter respectively.
-/
import Mathlib

namespace HodArchive

/-! ## Data model -/

/-- The `ArchiveRequest` namedtuple: the six job fields read from a CSV row. -/
structure ArchiveRequest where
  start_date_time : String
  end_date_time : String
  location : String
  format : String
  units : String
  results_location : String
deriving DecidableEq, Repr

/-- A job-status snapshot as returned by the service (`body['job']` of a
submission, or the body of a status poll).  The Python code holds this as a
`dict`; fields the code accesses are modelled as `Option`s, `none` meaning
the key is absent (a bare `d[k]` access on an absent key raises `KeyError`). -/
structure JobInfo where
  jobId : Option String
  jobStatus : Option String
  rowsReturned : Option Nat
  usage : Option Nat
  error : Option String
deriving DecidableEq, Repr

/-- The data carried by a `requests.HTTPError`'s response. -/
structure HTTPError where
  statusCode : Nat
  headers : List (String × String)
  body : String
deriving DecidableEq, Repr

/-- One scripted outcome of a remote call: either the parsed success payload
(for `post`, the already-extracted `body['job']`; for `get_status`, the body)
or the `requests.HTTPError` raised by `raise_for_status`. -/
inductive RemoteResp where
  | ok (info : JobInfo)
  | fail (e : HTTPError)
deriving DecidableEq, Repr

/-- The Python exceptions the driver can encounter. -/
inductive RunError where
  | http (e : HTTPError)
  | valueError (msg : String)
  | keyError (key : String)
  | indexError
  | scriptEnd
deriving DecidableEq, Repr

/-- Result of a piece of Python code: a value, or an uncaught exception. -/
inductive RunResult (α : Type) where
  | ok (val : α)
  | raised (e : RunError)
deriving DecidableEq, Repr

/-- The `Job` class: line number, request, and last-known status snapshot.
The `polls` field is the modelling artifact holding the remote service's
scripted responses to successive `get_status` calls for this job. -/
structure Job where
  line_number : Nat
  request : ArchiveRequest
  info : JobInfo
  polls : List RemoteResp
deriving DecidableEq, Repr

/-- The observable side effects (`print` calls) of the driver, in order. -/
inductive Event where
  | submitted (jobId : String) (line : Nat)
  | polled (jobId : String)
  | completed (jobId : String) (rowsReturned : Nat) (usage : Nat)
  | errored (jobId : String) (error : String)
  | handledError (statusCode : Nat) (body : String)
deriving DecidableEq, Repr

/-- The final tally printed by `run_jobs`. -/
structure Tally where
  completions : Nat
  errors : Nat
deriving DecidableEq, Repr

/-! ## Header normalization (`normalize_key`, `to_request`) -/

/-- The `.replace('_', '').replace('-', '').replace(' ', '')` chain. -/
def stripSeparators (l : List Char) : List Char :=
  l.filter (fun c => !(c == '_' || c == '-' || c == ' '))

/-- `normalize_key`: lower-case, strip `_` `-` and spaces, then map the three
known compressed names through the literal dict (`.get(key, key)`).
Lower-casing is modelled at the ASCII level (`Char.toLower`), which covers
every header the module documents. -/
def normalize_key (key : String) : String :=
  let k := String.mk (stripSeparators (key.toList.map Char.toLower))
  if k = "startdatetime" then "start_date_time"
  else if k = "enddatetime" then "end_date_time"
  else if k = "resultslocation" then "results_location"
  else k

/-- The six field names of the `ArchiveRequest` namedtuple. -/
def sixFields : List String :=
  ["start_date_time", "end_date_time", "location", "format", "units",
   "results_location"]

/-- Assignment `d[k] = v` on a Python dict modelled as an insertion-ordered
association list: overwrite in place if the key exists, else append. -/
def dictInsert (d : List (String × String)) (k v : String) :
    List (String × String) :=
  if d.any (fun q => q.fst == k) then
    d.map (fun q => if q.fst == k then (k, v) else q)
  else d ++ [(k, v)]

/-- The loop in `to_request` building `normalized_row`. -/
def normalizeRow (row : List (String × String)) : List (String × String) :=
  row.foldl (fun acc p => dictInsert acc (normalize_key p.fst) p.snd) []

/-- `to_request`: normalize the row's keys and call
`ArchiveRequest(**normalized_row)`.  The namedtuple constructor raises
`TypeError` when a required field is missing or an unexpected keyword is
passed, modelled by returning `none` in exactly those cases. -/
def to_request (row : List (String × String)) : Option ArchiveRequest :=
  let n := normalizeRow row
  if n.all (fun p => sixFields.contains p.fst) then
    match n.lookup "start_date_time", n.lookup "end_date_time",
      n.lookup "location", n.lookup "format", n.lookup "units",
      n.lookup "results_location" with
    | some a, some b, some c, some d, some e, some f =>
      some ⟨a, b, c, d, e, f⟩
    | _, _, _, _, _, _ => none
  else none

/-! ## Submission with backpressure retry (`post_with_retry`) -/

/-- ASCII whitespace accepted (and stripped) by Python's `int(str)`. -/
def isPySpace (c : Char) : Bool :=
  c == ' ' || c == '\t' || c == '\n' || c == '\r' || c == '\x0b' || c == '\x0c'

/-- Digit run of a Python integer literal: digits with single underscores
allowed between digits (`1_0` parses, `1__0`, `1_`, `_1` do not). -/
def pyDigitsVal : List Char → Nat → Option Nat
  | [], acc => some acc
  | '_' :: c :: rest, acc =>
    if c.isDigit then pyDigitsVal rest (acc * 10 + (c.toNat - 48)) else none
  | '_' :: [], _ => none
  | c :: rest, acc =>
    if c.isDigit then pyDigitsVal rest (acc * 10 + (c.toNat - 48)) else none

/-- Nonempty digit run starting with a digit. -/
def pyParseDigits : List Char → Option Nat
  | [] => none
  | c :: rest =>
    if c.isDigit then pyDigitsVal rest (c.toNat - 48) else none

/-- Python `int(s)` on a decimal string: optional surrounding ASCII
whitespace, optional sign, nonempty digit run.  `none` models the
`ValueError` raised on any other input. -/
def pyInt? (s : String) : Option Int :=
  let l := ((s.toList.dropWhile isPySpace).reverse.dropWhile isPySpace).reverse
  match l with
  | '+' :: rest => (pyParseDigits rest).map Int.ofNat
  | '-' :: rest => (pyParseDigits rest).map (fun n => -(Int.ofNat n))
  | rest => (pyParseDigits rest).map Int.ofNat

/-- `e.response.headers.get(key)`: `requests` header dicts are
case-insensitive, modelled by comparing lower-cased names. -/
def headerGet (headers : List (String × String)) (key : String) :
    Option String :=
  (headers.find? (fun p =>
    p.fst.toList.map Char.toLower == key.toList.map Char.toLower)).map
    (fun p => p.snd)

/-- `post_with_retry`: loop calling `post` until it returns, sleeping
`int(headers.get('Retry-After', '10'))` seconds on each 429 and re-raising
any other `HTTPError`.  The submission script is the sequence of outcomes
of successive `post` calls.  The result pairs the total seconds slept with
the outcome; `none` means the script ran out while the loop was still
retrying (in particular a persistently rate-limited service never returns).
`time.sleep` of a negative duration raises `ValueError`, modelled by the
dedicated message string. -/
def post_with_retry : List RemoteResp → Option (Nat × RunResult JobInfo)
  | [] => none
  | .ok info :: _ => some (0, .ok info)
  | .fail e :: rest =>
    if e.statusCode == 429 then
      match pyInt? ((headerGet e.headers "Retry-After").getD "10") with
      | none =>
        some (0, .raised (.valueError ((headerGet e.headers "Retry-After").getD "10")))
      | some n =>
        if n < 0 then
          some (0, .raised (.valueError "sleep length must be non-negative"))
        else
          match post_with_retry rest with
          | none => none
          | some (slept, out) => some (n.toNat + slept, out)
    else some (0, .raised (.http e))

/-! ## The sweep (`clean_completed`) -/

/-- Loop body of `clean_completed`, iterated `len(jobs)` times (the `fuel`
argument).  The deque is a list whose head is the right end (`pop` side,
oldest job) and whose tail end is the left end (`appendleft` side).  Each
iteration pops the oldest job, issues a `get_status` call (consuming the
head of the job's poll script; the `.polled` event records the call), and
retires or re-enqueues the job.  Exceptions abort the loop, returning the
events printed so far and the deque as mutated so far. -/
def clean_completed_go : Nat → List Job → Nat → Nat → List Event →
    List Event × List Job × RunResult (Nat × Nat)
  | 0, jobs, cc, ec, ev => (ev, jobs, .ok (cc, ec))
  | _ + 1, [], _, _, ev => (ev, [], .raised .indexError)
  | fuel + 1, job :: rest, cc, ec, ev =>
    match job.info.jobId with
    | none => (ev, rest, .raised (.keyError "jobId"))
    | some jid =>
      let ev1 := ev ++ [.polled jid]
      match job.polls with
      | [] => (ev1, rest, .raised .scriptEnd)
      | .fail e :: _ => (ev1, rest, .raised (.http e))
      | .ok info :: prest =>
        match info.jobStatus with
        | none => (ev1, rest, .raised (.keyError "jobStatus"))
        | some st =>
          if st = "complete" then
            match info.jobId with
            | none => (ev1, rest, .raised (.keyError "jobId"))
            | some cid =>
              clean_completed_go fuel rest (cc + 1) ec
                (ev1 ++ [.completed cid (info.rowsReturned.getD 0) (info.usage.getD 0)])
          else if st = "error" then
            match info.jobId, info.error with
            | none, _ => (ev1, rest, .raised (.keyError "jobId"))
            | some _, none => (ev1, rest, .raised (.keyError "error"))
            | some eid, some msg =>
              clean_completed_go fuel rest cc (ec + 1) (ev1 ++ [.errored eid msg])
          else
            clean_completed_go fuel (rest ++ [{ job with info := info, polls := prest }])
              cc ec ev1

/-- `clean_completed`: one sweep over the working set.  Returns the events
printed, the deque after the sweep, and either the `(complete, error)`
counts or the uncaught exception. -/
def clean_completed (jobs : List Job) :
    List Event × List Job × RunResult (Nat × Nat) :=
  clean_completed_go jobs.length jobs 0 0 []

/-! ## The driver (`run_jobs`) -/

/-- One input row together with its scripted remote behaviour: the outcomes
of successive `post` calls for this row's submission, and (should the
submission succeed) the outcomes of successive `get_status` polls. -/
structure RecordEnv where
  request : ArchiveRequest
  postScript : List RemoteResp
  pollScript : List RemoteResp
deriving DecidableEq, Repr

/-- The `for job in yield_jobs(...)` loop of `run_jobs`.  Per row: submit
with retry; on a caught `HTTPError` count one error and continue with the
next row; on success print the submission notice, `appendleft` the new job
and sweep once, accumulating the sweep's counts.  An `HTTPError` raised by
the sweep is caught by the same `except` clause (one error, continue); any
other exception propagates.  `none` models a run stuck in the rate-limit
retry loop (submission script exhausted). -/
def submit_phase : List RecordEnv → Nat → List Job → Nat → Nat → List Event →
    Option (List Event × RunResult (List Job × Nat × Nat))
  | [], _, jobs, c, e, ev => some (ev, .ok (jobs, c, e))
  | r :: rest, line, jobs, c, e, ev =>
    match post_with_retry r.postScript with
    | none => none
    | some (_, .raised (.http he)) =>
      submit_phase rest (line + 1) jobs c (e + 1)
        (ev ++ [.handledError he.statusCode he.body])
    | some (_, .raised err) => some (ev, .raised err)
    | some (_, .ok info) =>
      match info.jobId with
      | none => some (ev, .raised (.keyError "jobId"))
      | some jid =>
        let job : Job := ⟨line, r.request, info, r.pollScript⟩
        let ev1 := ev ++ [.submitted jid line]
        match clean_completed (jobs ++ [job]) with
        | (ev2, jobs2, .ok (nc, ne)) =>
          submit_phase rest (line + 1) jobs2 (c + nc) (e + ne) (ev1 ++ ev2)
        | (ev2, jobs2, .raised (.http he)) =>
          submit_phase rest (line + 1) jobs2 c (e + 1)
            (ev1 ++ ev2 ++ [.handledError he.statusCode he.body])
        | (ev2, _, .raised err) => some (ev1 ++ ev2, .raised err)

/-- The `while jobs_in_progress` drain loop of `run_jobs`: sweep, add the
counts, sleep 10s, repeat until the working set is empty.  There is no
`try` here, so any exception from the sweep aborts the run.  `fuel` bounds
the number of iterations; `none` means the loop was still running. -/
def drain_phase : Nat → List Job → Nat → Nat → List Event →
    Option (List Event × RunResult Tally)
  | _, [], c, e, ev => some (ev, .ok ⟨c, e⟩)
  | 0, _ :: _, _, _, _ => none
  | fuel + 1, j :: js, c, e, ev =>
    match clean_completed (j :: js) with
    | (ev2, _, .raised err) => some (ev ++ ev2, .raised err)
    | (ev2, jobs2, .ok (nc, ne)) => drain_phase fuel jobs2 (c + nc) (e + ne) (ev ++ ev2)

/-- `run_jobs`: the submission loop followed by the drain loop.  Line
numbers start at 1 as in `yield_jobs`.  The result is the event trace and
either the final tally or the uncaught exception; `none` means the given
fuel did not suffice to finish the drain loop (or a submission script ran
out mid-retry). -/
def run_jobs (records : List RecordEnv) (drainFuel : Nat) :
    Option (List Event × RunResult Tally) :=
  match submit_phase records 1 [] 0 0 [] with
  | none => none
  | some (ev, .raised err) => some (ev, .raised err)
  | some (ev, .ok (jobs, c, e)) => drain_phase drainFuel jobs c e ev

/-! ## Sweep description functions

These describe, job by job, what one sweep does to a working set whose
polls all answer.  They are proved equal to `clean_completed` below. -/

/-- The head of this job's poll script answers, and every dict key the
sweep's branch for it will access is present (so no exception can arise
from processing this job). -/
def jobHeadGood (j : Job) : Bool :=
  j.info.jobId.isSome &&
  match j.polls with
  | .ok i :: _ =>
    match i.jobStatus with
    | none => false
    | some st =>
      if st = "complete" then i.jobId.isSome
      else if st = "error" then i.jobId.isSome && i.error.isSome
      else true
  | _ => false

/-- The events the sweep prints while processing this job. -/
def jobEvents (j : Job) : List Event :=
  match j.polls with
  | .ok i :: _ =>
    let jid := j.info.jobId.getD ""
    match i.jobStatus with
    | none => [.polled jid]
    | some st =>
      if st = "complete" then
        [.polled jid,
         .completed (i.jobId.getD "") (i.rowsReturned.getD 0) (i.usage.getD 0)]
      else if st = "error" then
        [.polled jid, .errored (i.jobId.getD "") (i.error.getD "")]
      else [.polled jid]
  | _ => []

/-- The job as the sweep re-enqueues it (`none` when it is retired). -/
def jobSurvivor (j : Job) : Option Job :=
  match j.polls with
  | .ok i :: prest =>
    match i.jobStatus with
    | none => none
    | some st =>
      if st = "complete" then none
      else if st = "error" then none
      else some { j with info := i, polls := prest }
  | _ => none

/-- This sweep retires the job as a completion. -/
def jobRetiredComplete (j : Job) : Bool :=
  match j.polls with
  | .ok i :: _ => i.jobStatus == some "complete"
  | _ => false

/-- This sweep retires the job as an error. -/
def jobRetiredError (j : Job) : Bool :=
  match j.polls with
  | .ok i :: _ => i.jobStatus == some "error"
  | _ => false

/-- Events of a whole sweep, in deque order (oldest job first). -/
def sweepEvents : List Job → List Event
  | [] => []
  | j :: rest => jobEvents j ++ sweepEvents rest

/-- The working set a whole sweep leaves behind, in deque order. -/
def sweepSurvivors : List Job → List Job
  | [] => []
  | j :: rest => (jobSurvivor j).toList ++ sweepSurvivors rest

/-- Completions counted by a whole sweep. -/
def sweepCC (l : List Job) : Nat := l.countP jobRetiredComplete

/-- Errors counted by a whole sweep. -/
def sweepEC (l : List Job) : Nat := l.countP jobRetiredError

theorem sweepEvents_cons (j : Job) (l : List Job) :
    sweepEvents (j :: l) = jobEvents j ++ sweepEvents l := rfl

theorem sweepSurvivors_cons (j : Job) (l : List Job) :
    sweepSurvivors (j :: l) = (jobSurvivor j).toList ++ sweepSurvivors l := rfl

/-- Processing a good prefix of the deque: the loop walks the prefix,
accumulating its events, counts and survivors, then continues on the rest
with the remaining fuel. -/
theorem clean_go_front (pre : List Job)
    (hgood : ∀ j ∈ pre, jobHeadGood j = true) :
    ∀ (jobs : List Job) (fuel cc ec : Nat) (ev : List Event),
    clean_completed_go (pre.length + fuel) (pre ++ jobs) cc ec ev =
      clean_completed_go fuel (jobs ++ sweepSurvivors pre)
        (cc + sweepCC pre) (ec + sweepEC pre) (ev ++ sweepEvents pre) := by
  induction pre with
  | nil =>
    intro jobs fuel cc ec ev
    simp [sweepEvents, sweepSurvivors, sweepCC, sweepEC]
  | cons j pre ih =>
    intro jobs fuel cc ec ev
    have h := hgood
    have hj : jobHeadGood j = true := h j (by simp)
    have hpre : ∀ x ∈ pre, jobHeadGood x = true := fun x hx => h x (by simp [hx])
    rw [show (j :: pre).length + fuel = (pre.length + fuel) + 1 by simp; omega]
    cases hjid : j.info.jobId with
    | none => rw [jobHeadGood] at hj; simp [hjid] at hj
    | some jid =>
      cases hpolls : j.polls with
      | nil => rw [jobHeadGood] at hj; simp [hjid, hpolls] at hj
      | cons hd tl =>
        cases hd with
        | fail e => rw [jobHeadGood] at hj; simp [hjid, hpolls] at hj
        | ok i =>
          cases hstat : i.jobStatus with
          | none => rw [jobHeadGood] at hj; simp [hjid, hpolls, hstat] at hj
          | some st =>
            rw [jobHeadGood] at hj
            simp only [hjid, hpolls, hstat, Option.isSome_some, Bool.true_and] at hj
            by_cases hc : st = "complete"
            · have hcid : i.jobId.isSome := by simpa [hc] using hj
              obtain ⟨cid, hcid⟩ := Option.isSome_iff_exists.mp hcid
              rw [List.cons_append, clean_completed_go.eq_def]
              simp only [hjid, hpolls, hstat]
              rw [if_pos hc]
              simp only [hcid]
              rw [ih hpre]
              have h1 : sweepCC (j :: pre) = sweepCC pre + 1 := by
                simp [sweepCC, List.countP_cons, jobRetiredComplete, hpolls, hstat, hc]
              have h2 : sweepEC (j :: pre) = sweepEC pre := by
                simp [sweepEC, List.countP_cons, jobRetiredError, hpolls, hstat, hc]
              have h3 : jobSurvivor j = none := by
                simp [jobSurvivor, hpolls, hstat, hc]
              have h4 : jobEvents j =
                  [.polled jid,
                   .completed cid (i.rowsReturned.getD 0) (i.usage.getD 0)] := by
                simp [jobEvents, hpolls, hstat, hc, hjid, hcid]
              rw [sweepEvents_cons, sweepSurvivors_cons, h1, h2, h3, h4]
              rw [show cc + (sweepCC pre + 1) = cc + 1 + sweepCC pre by omega]
              simp
            · by_cases he : st = "error"
              · have herr : i.jobId.isSome ∧ i.error.isSome := by
                  have := hj
                  simp [hc, he] at this
                  simpa using this
                obtain ⟨eid, heid⟩ := Option.isSome_iff_exists.mp herr.1
                obtain ⟨msg, hmsg⟩ := Option.isSome_iff_exists.mp herr.2
                rw [List.cons_append, clean_completed_go.eq_def]
                simp only [hjid, hpolls, hstat]
                rw [if_neg hc, if_pos he]
                simp only [heid, hmsg]
                rw [ih hpre]
                have h1 : sweepCC (j :: pre) = sweepCC pre := by
                  simp [sweepCC, List.countP_cons, jobRetiredComplete, hpolls, hstat, hc]
                have h2 : sweepEC (j :: pre) = sweepEC pre + 1 := by
                  simp [sweepEC, List.countP_cons, jobRetiredError, hpolls, hstat, he]
                have h3 : jobSurvivor j = none := by
                  simp [jobSurvivor, hpolls, hstat, hc, he]
                have h4 : jobEvents j = [.polled jid, .errored eid msg] := by
                  simp [jobEvents, hpolls, hstat, hc, he, hjid, heid, hmsg]
                rw [sweepEvents_cons, sweepSurvivors_cons, h1, h2, h3, h4]
                rw [show ec + (sweepEC pre + 1) = ec + 1 + sweepEC pre by omega]
                simp
              · rw [List.cons_append, clean_completed_go.eq_def]
                simp only [hjid, hpolls, hstat]
                rw [if_neg hc, if_neg he]
                rw [show ((pre ++ jobs) ++ [{ j with info := i, polls := tl }]) =
                      pre ++ (jobs ++ [{ j with info := i, polls := tl }]) by
                    simp]
                rw [ih hpre]
                have h1 : sweepCC (j :: pre) = sweepCC pre := by
                  simp [sweepCC, List.countP_cons, jobRetiredComplete, hpolls, hstat, hc]
                have h2 : sweepEC (j :: pre) = sweepEC pre := by
                  simp [sweepEC, List.countP_cons, jobRetiredError, hpolls, hstat, he]
                have h3 : jobSurvivor j = some { j with info := i, polls := tl } := by
                  simp [jobSurvivor, hpolls, hstat, hc, he]
                have h4 : jobEvents j = [.polled jid] := by
                  simp [jobEvents, hpolls, hstat, hc, he, hjid]
                rw [sweepEvents_cons, sweepSurvivors_cons, h1, h2, h3, h4]
                simp

/-- A sweep over a working set whose polls all answer: the events, the
survivors and the counts are exactly the sweep description functions. -/
theorem clean_completed_spec (jobs : List Job)
    (h : ∀ j ∈ jobs, jobHeadGood j = true) :
    clean_completed jobs =
      (sweepEvents jobs, sweepSurvivors jobs, .ok (sweepCC jobs, sweepEC jobs)) := by
  have := clean_go_front jobs h [] 0 0 0 []
  simpa [clean_completed, clean_completed_go] using this

/-- A poll failure aborts the sweep at the failing job: the jobs before it
are processed normally, the failing job is popped (and lost), the jobs
after it are never polled, and the `HTTPError` propagates out of
`clean_completed` uncaught. -/
theorem clean_completed_abort (pre : List Job) (bad : Job) (post : List Job)
    (hgood : ∀ j ∈ pre, jobHeadGood j = true) (bid : String)
    (hbid : bad.info.jobId = some bid) (e : HTTPError) (tl : List RemoteResp)
    (hpolls : bad.polls = .fail e :: tl) :
    clean_completed (pre ++ bad :: post) =
      (sweepEvents pre ++ [.polled bid], post ++ sweepSurvivors pre,
       .raised (.http e)) := by
  rw [clean_completed]
  rw [show (pre ++ bad :: post).length = pre.length + (post.length + 1) by
    simp [Nat.add_comm]]
  rw [clean_go_front pre hgood (bad :: post) (post.length + 1) 0 0 []]
  rw [List.cons_append, clean_completed_go.eq_def]
  simp only [hbid, hpolls]
  simp

/-- Whenever a sweep returns normally, every job left in the working set was
re-enqueued with a freshly polled non-terminal status: its last-known
`jobStatus` is neither `complete` nor `error` (or it sat beyond the loop
bound, which `clean_completed` never leaves). -/
theorem clean_go_survivors_nonterminal :
    ∀ (fuel : Nat) (jobs : List Job) (cc ec : Nat) (ev ev' : List Event)
      (jobs' : List Job) (cc' ec' : Nat),
    clean_completed_go fuel jobs cc ec ev = (ev', jobs', .ok (cc', ec')) →
    ∀ j ∈ jobs', j ∈ jobs.drop fuel ∨
      (j.info.jobStatus ≠ some "complete" ∧ j.info.jobStatus ≠ some "error") := by
  intro fuel
  induction fuel with
  | zero =>
    intro jobs cc ec ev ev' jobs' cc' ec' h j hj
    rw [clean_completed_go] at h
    simp only [Prod.mk.injEq] at h
    exact Or.inl (by simpa [← h.2.1] using hj)
  | succ fuel ih =>
    intro jobs cc ec ev ev' jobs' cc' ec' h j hj
    cases jobs with
    | nil => simp [clean_completed_go] at h
    | cons j0 rest =>
      rw [clean_completed_go] at h
      cases hjid : j0.info.jobId with
      | none => simp only [hjid] at h; simp at h
      | some jid =>
        simp only [hjid] at h
        cases hpolls : j0.polls with
        | nil => simp only [hpolls] at h; simp at h
        | cons hd tl =>
          cases hd with
          | fail e => simp only [hpolls] at h; simp at h
          | ok info =>
            simp only [hpolls] at h
            cases hstat : info.jobStatus with
            | none => simp only [hstat] at h; simp at h
            | some st =>
              simp only [hstat] at h
              by_cases hc : st = "complete"
              · rw [if_pos hc] at h
                cases hcid : info.jobId with
                | none => simp only [hcid] at h; simp at h
                | some cid =>
                  simp only [hcid] at h
                  rcases ih _ _ _ _ _ _ _ _ h j hj with hmem | ht
                  · exact Or.inl (by simpa using hmem)
                  · exact Or.inr ht
              · by_cases he : st = "error"
                · rw [if_neg hc, if_pos he] at h
                  cases hcid : info.jobId with
                  | none => simp only [hcid] at h; simp at h
                  | some cid =>
                    cases herr : info.error with
                    | none => simp only [hcid, herr] at h; simp at h
                    | some msg =>
                      simp only [hcid, herr] at h
                      rcases ih _ _ _ _ _ _ _ _ h j hj with hmem | ht
                      · exact Or.inl (by simpa using hmem)
                      · exact Or.inr ht
                · rw [if_neg hc, if_neg he] at h
                  rcases ih _ _ _ _ _ _ _ _ h j hj with hmem | ht
                  · rw [List.drop_append_eq_append_drop] at hmem
                    rcases List.mem_append.mp hmem with hm1 | hm2
                    · exact Or.inl (by simpa using hm1)
                    · have hj0 : j = { j0 with info := info, polls := tl } := by
                        have := List.mem_of_mem_drop hm2
                        simpa using this
                      refine Or.inr ?_
                      rw [hj0]
                      simp only [hstat]
                      constructor
                      · simpa using fun hcontra => hc hcontra
                      · simpa using fun hcontra => he hcontra
                  · exact Or.inr ht

/-- Sweep-level invariant: after a sweep that returns normally, every job in
the working set has a non-terminal last-known status. -/
theorem clean_completed_nonterminal (jobs : List Job)
    (ev' : List Event) (jobs' : List Job) (cc ec : Nat)
    (h : clean_completed jobs = (ev', jobs', .ok (cc, ec))) :
    ∀ j ∈ jobs', j.info.jobStatus ≠ some "complete" ∧
      j.info.jobStatus ≠ some "error" := by
  intro j hj
  rcases clean_go_survivors_nonterminal jobs.length jobs 0 0 [] ev' jobs' cc ec
    h j hj with hmem | ht
  · simp at hmem
  · exact ht

/-! ## Well-behaved environments and end-to-end accounting -/

/-- A poll response that answers (no HTTP failure), carries a job id and a
status, and carries an error payload whenever the status is `error` (so the
sweep's branch for it cannot raise). -/
def okPollEntry (r : RemoteResp) : Bool :=
  match r with
  | .ok i =>
    i.jobId.isSome && i.jobStatus.isSome &&
    (i.jobStatus != some "error" || i.error.isSome)
  | .fail _ => false

/-- As `okPollEntry`, but the status is additionally never `error`. -/
def goodPollEntry (r : RemoteResp) : Bool :=
  match r with
  | .ok i =>
    i.jobId.isSome && i.jobStatus.isSome && (i.jobStatus != some "error")
  | .fail _ => false

/-- A poll script whose entries all answer well and whose last entry is
terminal, so a job following it is eventually retired. -/
def okPollScript (l : List RemoteResp) : Bool :=
  !l.isEmpty && l.all okPollEntry &&
  (match l.getLast? with
   | some (.ok i) =>
     i.jobStatus == some "complete" || i.jobStatus == some "error"
   | _ => false)

/-- A poll script of well-answering non-`error` entries ending `complete`. -/
def goodPollScript (l : List RemoteResp) : Bool :=
  !l.isEmpty && l.all goodPollEntry &&
  (match l.getLast? with
   | some (.ok i) => i.jobStatus == some "complete"
   | _ => false)

/-- An in-flight job whose known id is present and whose remaining poll
script is well behaved. -/
def okJob (j : Job) : Bool := j.info.jobId.isSome && okPollScript j.polls

/-- A record whose submission answers on the first `post` call (no
rate-limiting) — either a success carrying a job id and followed by a
well-behaved poll script, or a non-429 failure. -/
def okRecord (r : RecordEnv) : Bool :=
  match r.postScript with
  | .ok i :: _ => i.jobId.isSome && okPollScript r.pollScript
  | .fail e :: _ => e.statusCode != 429
  | [] => false

/-- A record whose submission succeeds immediately and whose polls never
report `error`. -/
def goodRecord (r : RecordEnv) : Bool :=
  match r.postScript with
  | .ok i :: _ => i.jobId.isSome && goodPollScript r.pollScript
  | _ => false

/-- The terminal status a job following this poll script will reach:
`some true` for `complete`, `some false` for `error` (first terminal entry
wins, matching the sweep's retirement order). -/
def scriptFate : List RemoteResp → Option Bool
  | [] => none
  | .ok i :: rest =>
    if i.jobStatus = some "complete" then some true
    else if i.jobStatus = some "error" then some false
    else if i.jobStatus = none then none
    else scriptFate rest
  | .fail _ :: _ => none

/-- The job will be retired as a completion. -/
def jobFateComplete (j : Job) : Bool := scriptFate j.polls == some true

/-- The job will be retired as an error. -/
def jobFateError (j : Job) : Bool := scriptFate j.polls == some false

/-- This input record ends up counted as a completion. -/
def recordFateComplete (r : RecordEnv) : Bool :=
  match r.postScript with
  | .ok _ :: _ => scriptFate r.pollScript == some true
  | _ => false

/-- This input record ends up counted as an error (failed submission, or a
job whose polls reach an `error` status). -/
def recordFateError (r : RecordEnv) : Bool :=
  match r.postScript with
  | .fail _ :: _ => true
  | .ok _ :: _ => scriptFate r.pollScript == some false
  | [] => false

/-- Total length of the outstanding poll scripts: the drain loop's
termination measure. -/
def sumPolls (jobs : List Job) : Nat :=
  (jobs.map (fun j => j.polls.length)).sum

/-- Total length of the records' poll scripts: enough drain fuel for any
run over these records. -/
def totalPolls (records : List RecordEnv) : Nat :=
  (records.map (fun r => r.pollScript.length)).sum

theorem okJob_headGood (j : Job) (h : okJob j = true) : jobHeadGood j = true := by
  rw [okJob] at h
  obtain ⟨hid, hscript⟩ := Bool.and_eq_true_iff.mp h
  rw [okPollScript] at hscript
  obtain ⟨h1, hlast⟩ := Bool.and_eq_true_iff.mp hscript
  obtain ⟨hne, hall⟩ := Bool.and_eq_true_iff.mp h1
  rw [jobHeadGood]
  cases hpolls : j.polls with
  | nil => rw [hpolls] at hne; simp at hne
  | cons hd tl =>
    have hhd : okPollEntry hd = true := by
      rw [hpolls] at hall
      exact (List.all_eq_true.mp hall) hd (by simp)
    cases hd with
    | fail e => simp [okPollEntry] at hhd
    | ok i =>
      rw [okPollEntry] at hhd
      simp only [Bool.and_eq_true] at hhd
      obtain ⟨⟨hiid, hsome⟩, herr⟩ := hhd
      simp only [hid, Bool.true_and, hpolls]
      cases hstat : i.jobStatus with
      | none => rw [hstat] at hsome; simp at hsome
      | some st =>
        simp only [hstat]
        by_cases hc : st = "complete"
        · rw [if_pos hc]; exact hiid
        · rw [if_neg hc]
          by_cases he : st = "error"
          · rw [if_pos he]
            rw [hstat] at herr
            have hpay : i.error.isSome = true := by
              subst he
              simpa using herr
            exact Bool.and_eq_true_iff.mpr ⟨hiid, hpay⟩
          · rw [if_neg he]

theorem okPollScript_tail (hd : RemoteResp) (tl : List RemoteResp)
    (h : okPollScript (hd :: tl) = true) (i : JobInfo) (st : String)
    (hhd : hd = .ok i) (hstat : i.jobStatus = some st)
    (hc : st ≠ "complete") (he : st ≠ "error") :
    okPollScript tl = true := by
  rw [okPollScript] at h ⊢
  obtain ⟨h1, hlast⟩ := Bool.and_eq_true_iff.mp h
  obtain ⟨_, hall⟩ := Bool.and_eq_true_iff.mp h1
  cases tl with
  | nil =>
    exfalso
    rw [hhd] at hlast
    simp only [List.getLast?_singleton] at hlast
    rw [hstat] at hlast
    simp at hlast
    rcases hlast with hl | hl
    · exact hc (by simpa using hl)
    · exact he (by simpa using hl)
  | cons x xs =>
    refine Bool.and_eq_true_iff.mpr ⟨Bool.and_eq_true_iff.mpr ⟨by simp, ?_⟩, ?_⟩
    · have := List.all_eq_true.mp hall
      exact List.all_eq_true.mpr fun a ha => this a (by simp [ha])
    · have hgl : (hd :: x :: xs).getLast? = (x :: xs).getLast? := by
        simp [List.getLast?_cons_cons]
      rw [hgl] at hlast
      exact hlast

theorem okJob_shape (j : Job) (h : okJob j = true) :
    ∃ i tl st, j.polls = RemoteResp.ok i :: tl ∧ i.jobStatus = some st ∧
      i.jobId.isSome = true ∧ (st = "error" → i.error.isSome = true) := by
  rw [okJob] at h
  obtain ⟨hid, hscript⟩ := Bool.and_eq_true_iff.mp h
  rw [okPollScript] at hscript
  obtain ⟨h1, hlast⟩ := Bool.and_eq_true_iff.mp hscript
  obtain ⟨hne, hall⟩ := Bool.and_eq_true_iff.mp h1
  cases hpolls : j.polls with
  | nil => rw [hpolls] at hne; simp at hne
  | cons hd tl =>
    have hhd : okPollEntry hd = true := by
      rw [hpolls] at hall
      exact (List.all_eq_true.mp hall) hd (by simp)
    cases hd with
    | fail e => simp [okPollEntry] at hhd
    | ok i =>
      rw [okPollEntry] at hhd
      simp only [Bool.and_eq_true] at hhd
      obtain ⟨⟨hiid, hsome⟩, herr⟩ := hhd
      obtain ⟨st, hstat⟩ := Option.isSome_iff_exists.mp hsome
      refine ⟨i, tl, st, rfl, hstat, hiid, ?_⟩
      intro he
      rw [hstat] at herr
      subst he
      simpa using herr

/-- Accounting for one sweep over a well-behaved working set: survivors are
still well behaved, the retirement counters balance the eventual fates, the
sizes add up, and the outstanding-polls measure drops by the set's size. -/
theorem sweep_accounting : ∀ (jobs : List Job),
    (∀ j ∈ jobs, okJob j = true) →
    (∀ j ∈ sweepSurvivors jobs, okJob j = true) ∧
    sweepCC jobs + (sweepSurvivors jobs).countP jobFateComplete =
      jobs.countP jobFateComplete ∧
    sweepEC jobs + (sweepSurvivors jobs).countP jobFateError =
      jobs.countP jobFateError ∧
    sweepCC jobs + sweepEC jobs + (sweepSurvivors jobs).length = jobs.length ∧
    sumPolls (sweepSurvivors jobs) + jobs.length ≤ sumPolls jobs := by
  intro jobs
  induction jobs with
  | nil =>
    intro _
    refine ⟨by simp [sweepSurvivors], ?_, ?_, ?_, ?_⟩ <;>
      simp [sweepSurvivors, sweepCC, sweepEC, sumPolls]
  | cons j rest ih =>
    intro h
    have hj := h j (by simp)
    have hrest : ∀ x ∈ rest, okJob x = true := fun x hx => h x (by simp [hx])
    obtain ⟨hsurv, hcc, hec, hlen, hsum⟩ := ih hrest
    obtain ⟨i, tl, st, hpolls, hstat, hiid, herr⟩ := okJob_shape j hj
    have hj' := hj
    rw [okJob] at hj'
    obtain ⟨hjid0, hscr⟩ := Bool.and_eq_true_iff.mp hj'
    have hplen : 1 ≤ j.polls.length := by rw [hpolls]; simp
    have e6 : sumPolls (j :: rest) = j.polls.length + sumPolls rest := by
      simp [sumPolls]
    by_cases hc : st = "complete"
    · have hrc : jobRetiredComplete j = true := by
        simp [jobRetiredComplete, hpolls, hstat, hc]
      have hre : jobRetiredError j = false := by
        simp [jobRetiredError, hpolls, hstat, hc]
      have hsv : jobSurvivor j = none := by
        simp [jobSurvivor, hpolls, hstat, hc]
      have hfc : jobFateComplete j = true := by
        simp [jobFateComplete, scriptFate, hpolls, hstat, hc]
      have hfe : jobFateError j = false := by
        simp [jobFateError, scriptFate, hpolls, hstat, hc]
      have e1 : sweepCC (j :: rest) = sweepCC rest + 1 := by
        simp [sweepCC, List.countP_cons, hrc]
      have e2 : sweepEC (j :: rest) = sweepEC rest := by
        simp [sweepEC, List.countP_cons, hre]
      have e3 : sweepSurvivors (j :: rest) = sweepSurvivors rest := by
        simp [sweepSurvivors_cons, hsv]
      refine ⟨by rw [e3]; exact hsurv, ?_, ?_, ?_, ?_⟩
      · rw [e1, e3, List.countP_cons, hfc]
        simp
        omega
      · rw [e2, e3, List.countP_cons, hfe]
        simpa using hec
      · rw [e1, e2, e3, List.length_cons]
        omega
      · rw [e3, e6, List.length_cons]
        omega
    · by_cases he : st = "error"
      · have hrc : jobRetiredComplete j = false := by
          simp [jobRetiredComplete, hpolls, hstat, he]
        have hre : jobRetiredError j = true := by
          simp [jobRetiredError, hpolls, hstat, he]
        have hsv : jobSurvivor j = none := by
          simp [jobSurvivor, hpolls, hstat, hc, he]
        have hfc : jobFateComplete j = false := by
          simp [jobFateComplete, scriptFate, hpolls, hstat, hc, he]
        have hfe : jobFateError j = true := by
          simp [jobFateError, scriptFate, hpolls, hstat, hc, he]
        have e1 : sweepCC (j :: rest) = sweepCC rest := by
          simp [sweepCC, List.countP_cons, hrc]
        have e2 : sweepEC (j :: rest) = sweepEC rest + 1 := by
          simp [sweepEC, List.countP_cons, hre]
        have e3 : sweepSurvivors (j :: rest) = sweepSurvivors rest := by
          simp [sweepSurvivors_cons, hsv]
        refine ⟨by rw [e3]; exact hsurv, ?_, ?_, ?_, ?_⟩
        · rw [e1, e3, List.countP_cons, hfc]
          simpa using hcc
        · rw [e2, e3, List.countP_cons, hfe]
          simp
          omega
        · rw [e1, e2, e3, List.length_cons]
          omega
        · rw [e3, e6, List.length_cons]
          omega
      · have hrc : jobRetiredComplete j = false := by
          simp [jobRetiredComplete, hpolls, hstat, hc]
        have hre : jobRetiredError j = false := by
          simp [jobRetiredError, hpolls, hstat, he]
        have hsv : jobSurvivor j = some { j with info := i, polls := tl } := by
          simp [jobSurvivor, hpolls, hstat, hc, he]
        have hfate : scriptFate j.polls = scriptFate tl := by
          simp [scriptFate, hpolls, hstat, hc, he]
        have htail : okPollScript tl = true :=
          okPollScript_tail (.ok i) tl (by rwa [hpolls] at hscr) i st rfl hstat hc he
        have hok' : okJob { j with info := i, polls := tl } = true := by
          rw [okJob]
          exact Bool.and_eq_true_iff.mpr ⟨hiid, htail⟩
        have hfceq : jobFateComplete { j with info := i, polls := tl } =
            jobFateComplete j := by
          simp [jobFateComplete, hfate]
        have hfeeq : jobFateError { j with info := i, polls := tl } =
            jobFateError j := by
          simp [jobFateError, hfate]
        have e1 : sweepCC (j :: rest) = sweepCC rest := by
          simp [sweepCC, List.countP_cons, hrc]
        have e2 : sweepEC (j :: rest) = sweepEC rest := by
          simp [sweepEC, List.countP_cons, hre]
        have e3 : sweepSurvivors (j :: rest) =
            { j with info := i, polls := tl } :: sweepSurvivors rest := by
          simp [sweepSurvivors_cons, hsv]
        refine ⟨?_, ?_, ?_, ?_, ?_⟩
        · rw [e3]
          intro x hx
          rcases List.mem_cons.mp hx with hx1 | hx2
          · rw [hx1]; exact hok'
          · exact hsurv x hx2
        · rw [e1, e3, List.countP_cons, List.countP_cons, hfceq]
          cases hb : jobFateComplete j <;> simp [hb] <;> omega
        · rw [e2, e3, List.countP_cons, List.countP_cons, hfeeq]
          cases hb : jobFateError j <;> simp [hb] <;> omega
        · rw [e1, e2, e3, List.length_cons, List.length_cons]
          omega
        · rw [e3, e6]
          have e7 : sumPolls ({ j with info := i, polls := tl } ::
              sweepSurvivors rest) = tl.length + sumPolls (sweepSurvivors rest) := by
            simp [sumPolls]
          rw [e7, List.length_cons]
          have : j.polls.length = tl.length + 1 := by rw [hpolls]; simp
          omega

/-- The drain loop terminates on a well-behaved working set given fuel at
least the outstanding-polls measure, adding each job's fate to the tally. -/
theorem drain_phase_ok : ∀ (fuel : Nat) (jobs : List Job) (c e : Nat)
    (ev : List Event),
    (∀ j ∈ jobs, okJob j = true) → sumPolls jobs ≤ fuel →
    ∃ ev', drain_phase fuel jobs c e ev =
      some (ev', .ok ⟨c + jobs.countP jobFateComplete,
        e + jobs.countP jobFateError⟩) := by
  intro fuel
  induction fuel with
  | zero =>
    intro jobs c e ev hok hfuel
    cases jobs with
    | nil => exact ⟨ev, by simp [drain_phase]⟩
    | cons j js =>
      exfalso
      have hj := hok j (by simp)
      obtain ⟨i, tl, st, hpolls, _, _, _⟩ := okJob_shape j hj
      have h1 : sumPolls (j :: js) = j.polls.length + sumPolls js := by
        simp [sumPolls]
      have h2 : j.polls.length = tl.length + 1 := by rw [hpolls]; simp
      omega
  | succ fuel ih =>
    intro jobs c e ev hok hfuel
    cases jobs with
    | nil => exact ⟨ev, by simp [drain_phase]⟩
    | cons j js =>
      have hgood : ∀ x ∈ (j :: js), jobHeadGood x = true :=
        fun x hx => okJob_headGood x (hok x hx)
      have hspec := clean_completed_spec (j :: js) hgood
      obtain ⟨hsurv, hcc, hec, hlen, hsum⟩ := sweep_accounting (j :: js) hok
      have hfuel' : sumPolls (sweepSurvivors (j :: js)) ≤ fuel := by
        have hl : 1 ≤ (j :: js).length := by simp
        omega
      obtain ⟨ev', hdrain⟩ := ih (sweepSurvivors (j :: js))
        (c + sweepCC (j :: js)) (e + sweepEC (j :: js))
        (ev ++ sweepEvents (j :: js)) hsurv hfuel'
      refine ⟨ev', ?_⟩
      rw [drain_phase]
      rw [hspec]
      show drain_phase fuel (sweepSurvivors (j :: js)) (c + sweepCC (j :: js))
        (e + sweepEC (j :: js)) (ev ++ sweepEvents (j :: js)) = _
      rw [hdrain]
      have g1 : c + sweepCC (j :: js) +
          (sweepSurvivors (j :: js)).countP jobFateComplete =
          c + (j :: js).countP jobFateComplete := by omega
      have g2 : e + sweepEC (j :: js) +
          (sweepSurvivors (j :: js)).countP jobFateError =
          e + (j :: js).countP jobFateError := by omega
      rw [g1, g2]

/-- The submission loop over well-behaved records never raises: each record
either submits (entering the working set) or is counted as one error, the
sweeps retire jobs according to their fates, and the working set stays well
behaved.  The counters balance against the records' fates. -/
theorem submit_phase_ok : ∀ (records : List RecordEnv) (line : Nat)
    (jobs : List Job) (c e : Nat) (ev : List Event),
    (∀ r ∈ records, okRecord r = true) → (∀ j ∈ jobs, okJob j = true) →
    ∃ ev' jobs' c' e',
      submit_phase records line jobs c e ev = some (ev', .ok (jobs', c', e')) ∧
      (∀ j ∈ jobs', okJob j = true) ∧
      c' + jobs'.countP jobFateComplete =
        c + jobs.countP jobFateComplete + records.countP recordFateComplete ∧
      e' + jobs'.countP jobFateError =
        e + jobs.countP jobFateError + records.countP recordFateError ∧
      sumPolls jobs' ≤ sumPolls jobs + totalPolls records := by
  intro records
  induction records with
  | nil =>
    intro line jobs c e ev _ hjobs
    exact ⟨ev, jobs, c, e, by simp [submit_phase], hjobs, by simp, by simp,
      by simp [totalPolls]⟩
  | cons r rest ih =>
    intro line jobs c e ev hrec hjobs
    have hr := hrec r (by simp)
    have hrest : ∀ x ∈ rest, okRecord x = true := fun x hx => hrec x (by simp [hx])
    have htot : totalPolls (r :: rest) = r.pollScript.length + totalPolls rest := by
      simp [totalPolls]
    rw [okRecord] at hr
    cases hpost : r.postScript with
    | nil => rw [hpost] at hr; simp at hr
    | cons hd ptl =>
      cases hd with
      | fail he0 =>
        rw [hpost] at hr
        have hne : ¬ he0.statusCode = 429 := by simpa using hr
        have hpwr : post_with_retry r.postScript =
            some (0, .raised (.http he0)) := by
          rw [hpost, post_with_retry]
          simp [hne]
        have hrfc : recordFateComplete r = false := by
          simp [recordFateComplete, hpost]
        have hrfe : recordFateError r = true := by
          simp [recordFateError, hpost]
        obtain ⟨ev', jobs', c', e', heq, hok', hc', he', hsum'⟩ :=
          ih (line + 1) jobs c (e + 1)
            (ev ++ [.handledError he0.statusCode he0.body]) hrest hjobs
        refine ⟨ev', jobs', c', e', ?_, hok', ?_, ?_, ?_⟩
        · rw [submit_phase, hpwr]
          exact heq
        · rw [List.countP_cons, hrfc]
          simp
          omega
        · rw [List.countP_cons, hrfe]
          simp
          omega
        · omega
      | ok i =>
        rw [hpost] at hr
        obtain ⟨hiid, hscript⟩ := Bool.and_eq_true_iff.mp hr
        obtain ⟨jid, hjid⟩ := Option.isSome_iff_exists.mp hiid
        have hpwr : post_with_retry r.postScript = some (0, .ok i) := by
          rw [hpost, post_with_retry]
        have hoknew : okJob ⟨line, r.request, i, r.pollScript⟩ = true := by
          rw [okJob]
          exact Bool.and_eq_true_iff.mpr ⟨hiid, hscript⟩
        have hall : ∀ x ∈ jobs ++ [(⟨line, r.request, i, r.pollScript⟩ : Job)],
            okJob x = true := by
          intro x hx
          rcases List.mem_append.mp hx with hx1 | hx2
          · exact hjobs x hx1
          · rw [List.mem_singleton.mp hx2]
            exact hoknew
        have hgood : ∀ x ∈ jobs ++ [(⟨line, r.request, i, r.pollScript⟩ : Job)],
            jobHeadGood x = true := fun x hx => okJob_headGood x (hall x hx)
        have hspec := clean_completed_spec
          (jobs ++ [(⟨line, r.request, i, r.pollScript⟩ : Job)]) hgood
        obtain ⟨hsurv, hcc, hec, hlen, hsum⟩ := sweep_accounting
          (jobs ++ [(⟨line, r.request, i, r.pollScript⟩ : Job)]) hall
        obtain ⟨ev', jobs', c', e', heq, hok', hc', he', hsum'⟩ :=
          ih (line + 1)
            (sweepSurvivors (jobs ++ [(⟨line, r.request, i, r.pollScript⟩ : Job)]))
            (c + sweepCC (jobs ++ [(⟨line, r.request, i, r.pollScript⟩ : Job)]))
            (e + sweepEC (jobs ++ [(⟨line, r.request, i, r.pollScript⟩ : Job)]))
            ((ev ++ [.submitted jid line]) ++
              sweepEvents (jobs ++ [(⟨line, r.request, i, r.pollScript⟩ : Job)]))
            hrest hsurv
        have hrceq : recordFateComplete r =
            jobFateComplete ⟨line, r.request, i, r.pollScript⟩ := by
          simp [recordFateComplete, hpost, jobFateComplete]
        have hreeq : recordFateError r =
            jobFateError ⟨line, r.request, i, r.pollScript⟩ := by
          simp [recordFateError, hpost, jobFateError]
        have hXc : (jobs ++ [(⟨line, r.request, i, r.pollScript⟩ : Job)]).countP
            jobFateComplete = jobs.countP jobFateComplete +
            (if jobFateComplete ⟨line, r.request, i, r.pollScript⟩ then 1 else 0) := by
          rw [List.countP_append, List.countP_cons]
          simp
        have hXe : (jobs ++ [(⟨line, r.request, i, r.pollScript⟩ : Job)]).countP
            jobFateError = jobs.countP jobFateError +
            (if jobFateError ⟨line, r.request, i, r.pollScript⟩ then 1 else 0) := by
          rw [List.countP_append, List.countP_cons]
          simp
        have hXs : sumPolls (jobs ++ [(⟨line, r.request, i, r.pollScript⟩ : Job)]) =
            sumPolls jobs + r.pollScript.length := by
          simp [sumPolls]
        refine ⟨ev', jobs', c', e', ?_, hok', ?_, ?_, ?_⟩
        · rw [submit_phase, hpwr]
          simp only [hjid]
          rw [hspec]
          exact heq
        · rw [List.countP_cons, hrceq]
          cases hb : jobFateComplete ⟨line, r.request, i, r.pollScript⟩ with
          | false =>
            rw [hb] at hXc
            simp only [Bool.false_eq_true, if_false] at hXc ⊢
            omega
          | true =>
            rw [hb] at hXc
            simp only [if_true] at hXc ⊢
            omega
        · rw [List.countP_cons, hreeq]
          cases hb : jobFateError ⟨line, r.request, i, r.pollScript⟩ with
          | false =>
            rw [hb] at hXe
            simp only [Bool.false_eq_true, if_false] at hXe ⊢
            omega
          | true =>
            rw [hb] at hXe
            simp only [if_true] at hXe ⊢
            omega
        · omega

theorem okPollScript_fate : ∀ (l : List RemoteResp), okPollScript l = true →
    scriptFate l = some true ∨ scriptFate l = some false := by
  intro l
  induction l with
  | nil => intro h; rw [okPollScript] at h; simp at h
  | cons hd tl ih =>
    intro h
    have hall : (hd :: tl).all okPollEntry = true := by
      rw [okPollScript] at h
      exact (Bool.and_eq_true_iff.mp (Bool.and_eq_true_iff.mp h).1).2
    have hhd : okPollEntry hd = true := (List.all_eq_true.mp hall) hd (by simp)
    cases hd with
    | fail e => simp [okPollEntry] at hhd
    | ok i =>
      rw [okPollEntry] at hhd
      simp only [Bool.and_eq_true] at hhd
      obtain ⟨⟨hiid, hsome⟩, herr⟩ := hhd
      obtain ⟨st, hstat⟩ := Option.isSome_iff_exists.mp hsome
      by_cases hc : st = "complete"
      · left
        simp [scriptFate, hstat, hc]
      · by_cases he : st = "error"
        · right
          simp [scriptFate, hstat, hc, he]
        · have hfate : scriptFate (RemoteResp.ok i :: tl) = scriptFate tl := by
            simp [scriptFate, hstat, hc, he]
          rw [hfate]
          exact ih (okPollScript_tail (.ok i) tl h i st rfl hstat hc he)

theorem goodPollEntry_ok (r : RemoteResp) (h : goodPollEntry r = true) :
    okPollEntry r = true := by
  cases r with
  | fail e => simp [goodPollEntry] at h
  | ok i =>
    rw [goodPollEntry] at h
    simp only [Bool.and_eq_true] at h
    obtain ⟨⟨h1, h2⟩, h3⟩ := h
    rw [okPollEntry]
    simp [h1, h2, h3]

theorem goodPollScript_ok (l : List RemoteResp) (h : goodPollScript l = true) :
    okPollScript l = true := by
  rw [goodPollScript] at h
  obtain ⟨h1, hlast⟩ := Bool.and_eq_true_iff.mp h
  obtain ⟨hne, hall⟩ := Bool.and_eq_true_iff.mp h1
  rw [okPollScript]
  refine Bool.and_eq_true_iff.mpr ⟨Bool.and_eq_true_iff.mpr ⟨hne, ?_⟩, ?_⟩
  · exact List.all_eq_true.mpr fun a ha =>
      goodPollEntry_ok a ((List.all_eq_true.mp hall) a ha)
  · cases hl : l.getLast? with
    | none => rw [hl] at hlast; simp at hlast
    | some x =>
      rw [hl] at hlast
      cases x with
      | fail e => simp at hlast
      | ok i => simp only [beq_iff_eq] at hlast; simp [hlast]

theorem goodPollScript_fate : ∀ (l : List RemoteResp),
    goodPollScript l = true → scriptFate l = some true := by
  intro l
  induction l with
  | nil => intro h; rw [goodPollScript] at h; simp at h
  | cons hd tl ih =>
    intro h
    have hall : (hd :: tl).all goodPollEntry = true := by
      rw [goodPollScript] at h
      exact (Bool.and_eq_true_iff.mp (Bool.and_eq_true_iff.mp h).1).2
    have hhd : goodPollEntry hd = true := (List.all_eq_true.mp hall) hd (by simp)
    cases hd with
    | fail e => simp [goodPollEntry] at hhd
    | ok i =>
      rw [goodPollEntry] at hhd
      simp only [Bool.and_eq_true] at hhd
      obtain ⟨⟨hiid, hsome⟩, hnerr⟩ := hhd
      obtain ⟨st, hstat⟩ := Option.isSome_iff_exists.mp hsome
      have he : ¬ st = "error" := by
        rw [hstat] at hnerr
        simpa using hnerr
      by_cases hc : st = "complete"
      · simp [scriptFate, hstat, hc]
      · have hfate : scriptFate (RemoteResp.ok i :: tl) = scriptFate tl := by
          simp [scriptFate, hstat, hc, he]
        rw [hfate]
        refine ih ?_
        rw [goodPollScript] at h ⊢
        obtain ⟨h1, hlast⟩ := Bool.and_eq_true_iff.mp h
        obtain ⟨_, hall'⟩ := Bool.and_eq_true_iff.mp h1
        cases tl with
        | nil =>
          exfalso
          simp only [List.getLast?_singleton] at hlast
          rw [hstat] at hlast
          simp at hlast
          exact hc (by simpa using hlast)
        | cons x xs =>
          refine Bool.and_eq_true_iff.mpr ⟨Bool.and_eq_true_iff.mpr ⟨by simp, ?_⟩, ?_⟩
          · exact List.all_eq_true.mpr fun a ha =>
              (List.all_eq_true.mp hall') a (by simp [ha])
          · rw [show (RemoteResp.ok i :: x :: xs).getLast? = (x :: xs).getLast? by
              simp [List.getLast?_cons_cons]] at hlast
            exact hlast

theorem okRecord_fate_partition (r : RecordEnv) (h : okRecord r = true) :
    (recordFateComplete r = true ∧ recordFateError r = false) ∨
    (recordFateComplete r = false ∧ recordFateError r = true) := by
  rw [okRecord] at h
  cases hpost : r.postScript with
  | nil => rw [hpost] at h; simp at h
  | cons hd ptl =>
    cases hd with
    | fail e =>
      right
      constructor
      · simp [recordFateComplete, hpost]
      · simp [recordFateError, hpost]
    | ok i =>
      rw [hpost] at h
      obtain ⟨_, hscript⟩ := Bool.and_eq_true_iff.mp h
      rcases okPollScript_fate r.pollScript hscript with hf | hf
      · left
        constructor
        · simp [recordFateComplete, hpost, hf]
        · simp [recordFateError, hpost, hf]
      · right
        constructor
        · simp [recordFateComplete, hpost, hf]
        · simp [recordFateError, hpost, hf]

theorem goodRecord_ok (r : RecordEnv) (h : goodRecord r = true) :
    okRecord r = true := by
  rw [goodRecord] at h
  cases hpost : r.postScript with
  | nil => rw [hpost] at h; simp at h
  | cons hd ptl =>
    cases hd with
    | fail e => rw [hpost] at h; simp at h
    | ok i =>
      rw [hpost] at h
      obtain ⟨hiid, hscript⟩ := Bool.and_eq_true_iff.mp h
      rw [okRecord, hpost]
      exact Bool.and_eq_true_iff.mpr ⟨hiid, goodPollScript_ok _ hscript⟩

theorem goodRecord_no_error (r : RecordEnv) (h : goodRecord r = true) :
    recordFateError r = false := by
  rw [goodRecord] at h
  cases hpost : r.postScript with
  | nil => rw [hpost] at h; simp at h
  | cons hd ptl =>
    cases hd with
    | fail e => rw [hpost] at h; simp at h
    | ok i =>
      rw [hpost] at h
      obtain ⟨_, hscript⟩ := Bool.and_eq_true_iff.mp h
      have := goodPollScript_fate r.pollScript hscript
      simp [recordFateError, hpost, this]

theorem countP_fate_partition : ∀ (records : List RecordEnv),
    (∀ r ∈ records, okRecord r = true) →
    records.countP recordFateComplete + records.countP recordFateError =
      records.length := by
  intro records
  induction records with
  | nil => intro _; simp
  | cons r rest ih =>
    intro h
    have hr := h r (by simp)
    have hrest := ih fun x hx => h x (by simp [hx])
    rw [List.countP_cons, List.countP_cons, List.length_cons]
    rcases okRecord_fate_partition r hr with ⟨h1, h2⟩ | ⟨h1, h2⟩ <;>
      rw [h1, h2] <;> simp <;> omega

theorem countP_error_zero : ∀ (records : List RecordEnv),
    (∀ r ∈ records, goodRecord r = true) →
    records.countP recordFateError = 0 := by
  intro records
  induction records with
  | nil => intro _; simp
  | cons r rest ih =>
    intro h
    rw [List.countP_cons, goodRecord_no_error r (h r (by simp))]
    simp [ih fun x hx => h x (by simp [hx])]

/-- The full run over well-behaved records: terminates with the fates as
the tally. -/
theorem run_jobs_ok (records : List RecordEnv)
    (h : ∀ r ∈ records, okRecord r = true) :
    ∃ ev, run_jobs records (totalPolls records) =
      some (ev, .ok ⟨records.countP recordFateComplete,
        records.countP recordFateError⟩) := by
  obtain ⟨ev', jobs', c', e', heq, hok', hc', he', hsum'⟩ :=
    submit_phase_ok records 1 [] 0 0 [] h (by simp)
  have hfuel : sumPolls jobs' ≤ totalPolls records := by
    have h0 : sumPolls ([] : List Job) = 0 := by simp [sumPolls]
    omega
  obtain ⟨ev2, hdrain⟩ := drain_phase_ok (totalPolls records) jobs' c' e' ev'
    hok' hfuel
  refine ⟨ev2, ?_⟩
  rw [run_jobs, heq]
  show drain_phase (totalPolls records) jobs' c' e' ev' = _
  rw [hdrain]
  have hc0 : c' + jobs'.countP jobFateComplete =
      records.countP recordFateComplete := by
    have : ([] : List Job).countP jobFateComplete = 0 := by simp
    omega
  have he0 : e' + jobs'.countP jobFateError =
      records.countP recordFateError := by
    have : ([] : List Job).countP jobFateError = 0 := by simp
    omega
  rw [hc0, he0]

/-! ## Behaviour of the submission retry loop -/

/-- A `post` outcome that sends the retry loop around again: a 429 whose
`Retry-After` header is absent or parses as a non-negative integer. -/
def retryAfterOk (o : Option String) : Bool :=
  match o with
  | none => true
  | some s =>
    match pyInt? s with
    | none => false
    | some n => decide (0 ≤ n)

/-- See `retryAfterOk`. -/
def retryEntry (r : RemoteResp) : Bool :=
  match r with
  | .fail e => e.statusCode == 429 && retryAfterOk (headerGet e.headers "Retry-After")
  | .ok _ => false

theorem post_with_retry_no_429 : ∀ (script : List RemoteResp) (t : Nat)
    (e : HTTPError),
    post_with_retry script = some (t, .raised (.http e)) →
    e.statusCode ≠ 429 := by
  intro script
  induction script with
  | nil => intro t e h; simp [post_with_retry] at h
  | cons hd tl ih =>
    intro t e h
    cases hd with
    | ok i => rw [post_with_retry] at h; simp at h
    | fail e0 =>
      rw [post_with_retry] at h
      by_cases h429 : (e0.statusCode == 429) = true
      · rw [if_pos h429] at h
        cases hpi : pyInt? ((headerGet e0.headers "Retry-After").getD "10") with
        | none => simp only [hpi] at h; simp at h
        | some n =>
          simp only [hpi] at h
          by_cases hn : n < 0
          · rw [if_pos hn] at h; simp at h
          · rw [if_neg hn] at h
            cases hrec : post_with_retry tl with
            | none => simp only [hrec] at h; simp at h
            | some p =>
              obtain ⟨slept, out⟩ := p
              simp only [hrec] at h
              simp only [Option.some.injEq, Prod.mk.injEq] at h
              exact ih slept e (by rw [hrec, h.2])
      · rw [if_neg h429] at h
        simp only [Option.some.injEq, Prod.mk.injEq, RunResult.raised.injEq,
          RunError.http.injEq] at h
        rw [← h.2]
        simpa using h429

theorem post_with_retry_429_default (e : HTTPError) (rest : List RemoteResp)
    (h429 : e.statusCode = 429)
    (habs : headerGet e.headers "Retry-After" = none) :
    post_with_retry (.fail e :: rest) =
      (post_with_retry rest).map (fun p => (10 + p.1, p.2)) := by
  rw [post_with_retry]
  rw [if_pos (by simp [h429])]
  rw [habs]
  have h10 : pyInt? ((none : Option String).getD "10") = some 10 := by decide
  simp only [h10]
  rw [if_neg (by omega)]
  cases hrec : post_with_retry rest with
  | none => simp
  | some p => obtain ⟨slept, out⟩ := p; simp

theorem post_with_retry_429_wait (e : HTTPError) (rest : List RemoteResp)
    (s : String) (n : Nat)
    (h429 : e.statusCode = 429)
    (hhdr : headerGet e.headers "Retry-After" = some s)
    (hparse : pyInt? s = some (n : Int)) :
    post_with_retry (.fail e :: rest) =
      (post_with_retry rest).map (fun p => (n + p.1, p.2)) := by
  rw [post_with_retry]
  rw [if_pos (by simp [h429])]
  rw [hhdr]
  simp only [Option.getD_some]
  simp only [hparse]
  rw [if_neg (by omega)]
  cases hrec : post_with_retry rest with
  | none => simp
  | some p => obtain ⟨slept, out⟩ := p; simp

theorem post_with_retry_indefinite : ∀ (script : List RemoteResp),
    (∀ r ∈ script, retryEntry r = true) → post_with_retry script = none := by
  intro script
  induction script with
  | nil => intro _; rfl
  | cons hd tl ih =>
    intro h
    have hhd := h hd (by simp)
    cases hd with
    | ok i => simp [retryEntry] at hhd
    | fail e =>
      rw [retryEntry] at hhd
      obtain ⟨h429, hra⟩ := Bool.and_eq_true_iff.mp hhd
      rw [post_with_retry, if_pos h429]
      cases hget : headerGet e.headers "Retry-After" with
      | none =>
        have h10 : pyInt? ((none : Option String).getD "10") = some 10 := by
          decide
        simp only [h10]
        rw [if_neg (by omega), ih fun r hr => h r (by simp [hr])]
      | some s =>
        rw [hget] at hra
        rw [retryAfterOk] at hra
        simp only [Option.getD_some]
        cases hpi : pyInt? s with
        | none => simp only [hpi] at hra; simp at hra
        | some n =>
          simp only [hpi] at hra
          simp only [decide_eq_true_eq] at hra
          simp only [hpi]
          rw [if_neg (by omega), ih fun r hr => h r (by simp [hr])]

/-! ## Properties of header normalization -/

theorem char_toLower_eq (c : Char) :
    c.toLower =
      if c.toNat ≥ 65 ∧ c.toNat ≤ 90 then Char.ofNat (c.toNat + 32) else c :=
  rfl

theorem char_toNat_ofNat_valid (n : Nat) (h : n.isValidChar) :
    (Char.ofNat n).toNat = n := by
  rw [Char.ofNat, dif_pos h]
  rfl

theorem char_toLower_idem (c : Char) : c.toLower.toLower = c.toLower := by
  by_cases h : c.toNat ≥ 65 ∧ c.toNat ≤ 90
  · have h1 : c.toLower = Char.ofNat (c.toNat + 32) := by
      rw [char_toLower_eq, if_pos h]
    have hvalid : (c.toNat + 32).isValidChar := by
      rw [Nat.isValidChar]
      left
      omega
    have htn : (Char.ofNat (c.toNat + 32)).toNat = c.toNat + 32 :=
      char_toNat_ofNat_valid _ hvalid
    rw [h1, char_toLower_eq, if_neg (by rw [htn]; omega)]
  · have h1 : c.toLower = c := by rw [char_toLower_eq, if_neg h]
    rw [h1, h1]

theorem map_self_of_fixed {α : Type} {f : α → α} : ∀ (l : List α),
    (∀ a ∈ l, f a = a) → l.map f = l := by
  intro l
  induction l with
  | nil => intro _; rfl
  | cons x xs ih =>
    intro h
    simp only [List.map_cons, h x (by simp), List.cons.injEq, true_and]
    exact ih fun a ha => h a (by simp [ha])

theorem stripSeparators_idem (l : List Char) :
    stripSeparators (stripSeparators l) = stripSeparators l := by
  rw [stripSeparators, stripSeparators, List.filter_filter]
  simp

theorem normalize_core_idem (l : List Char) :
    stripSeparators ((stripSeparators (l.map Char.toLower)).map Char.toLower) =
      stripSeparators (l.map Char.toLower) := by
  have h1 : (stripSeparators (l.map Char.toLower)).map Char.toLower =
      stripSeparators (l.map Char.toLower) := by
    apply map_self_of_fixed
    intro a ha
    obtain ⟨x, _, rfl⟩ := List.mem_map.mp (List.mem_of_mem_filter ha)
    exact char_toLower_idem x
  rw [h1, stripSeparators_idem]

theorem normalize_key_eq (s : String) : normalize_key s =
    (if String.mk (stripSeparators (s.toList.map Char.toLower)) = "startdatetime"
     then "start_date_time"
     else if String.mk (stripSeparators (s.toList.map Char.toLower)) = "enddatetime"
     then "end_date_time"
     else if String.mk (stripSeparators (s.toList.map Char.toLower)) =
       "resultslocation"
     then "results_location"
     else String.mk (stripSeparators (s.toList.map Char.toLower))) :=
  rfl

theorem normalize_key_idem (k : String) :
    normalize_key (normalize_key k) = normalize_key k := by
  rw [normalize_key_eq k]
  by_cases h1 : String.mk (stripSeparators (k.toList.map Char.toLower)) =
      "startdatetime"
  · rw [if_pos h1]; decide
  · rw [if_neg h1]
    by_cases h2 : String.mk (stripSeparators (k.toList.map Char.toLower)) =
        "enddatetime"
    · rw [if_pos h2]; decide
    · rw [if_neg h2]
      by_cases h3 : String.mk (stripSeparators (k.toList.map Char.toLower)) =
          "resultslocation"
      · rw [if_pos h3]; decide
      · rw [if_neg h3]
        rw [normalize_key_eq]
        have htl : (String.mk (stripSeparators (k.toList.map Char.toLower))).toList =
            stripSeparators (k.toList.map Char.toLower) := rfl
        rw [htl, normalize_core_idem]
        rw [if_neg h1, if_neg h2, if_neg h3]

/-! ## Key-set characterisation of `to_request` -/

theorem dictInsert_keys (d : List (String × String)) (k v x : String) :
    x ∈ (dictInsert d k v).map Prod.fst ↔ x = k ∨ x ∈ d.map Prod.fst := by
  rw [dictInsert]
  by_cases h : d.any (fun q => q.fst == k) = true
  · rw [if_pos h]
    rw [List.map_map]
    constructor
    · intro hx
      obtain ⟨q, hq, hxq⟩ := List.mem_map.mp hx
      by_cases hqk : (q.fst == k) = true
      · left
        simp only [Function.comp_apply, if_pos hqk] at hxq
        exact hxq.symm
      · right
        simp only [Function.comp_apply, Bool.not_eq_true] at hxq
        rw [if_neg (by simp [hqk])] at hxq
        exact hxq ▸ List.mem_map.mpr ⟨q, hq, rfl⟩
    · intro hx
      rcases hx with hx | hx
      · obtain ⟨q, hq, hqk⟩ := List.any_eq_true.mp h
        refine List.mem_map.mpr ⟨q, hq, ?_⟩
        simp only [Function.comp_apply, if_pos hqk]
        exact hx.symm
      · obtain ⟨q, hq, hxq⟩ := List.mem_map.mp hx
        refine List.mem_map.mpr ⟨q, hq, ?_⟩
        by_cases hqk : (q.fst == k) = true
        · simp only [Function.comp_apply, if_pos hqk]
          rw [← hxq]
          exact (LawfulBEq.eq_of_beq hqk).symm
        · simp only [Function.comp_apply]
          rw [if_neg (by simp [hqk])]
          exact hxq
  · rw [if_neg h]
    simp only [List.map_append, List.map_cons, List.map_nil, List.mem_append,
      List.mem_singleton]
    tauto

theorem normalizeRow_keys : ∀ (row : List (String × String))
    (acc : List (String × String)) (x : String),
    x ∈ (row.foldl (fun a p => dictInsert a (normalize_key p.fst) p.snd)
      acc).map Prod.fst ↔
    x ∈ acc.map Prod.fst ∨ x ∈ row.map (fun p => normalize_key p.fst) := by
  intro row
  induction row with
  | nil => intro acc x; simp
  | cons p ps ih =>
    intro acc x
    simp only [List.foldl_cons]
    rw [ih]
    rw [dictInsert_keys]
    simp only [List.map_cons, List.mem_cons]
    tauto

theorem lookup_isSome_iff_mem_keys : ∀ (l : List (String × String)) (k : String),
    (l.lookup k).isSome = true ↔ k ∈ l.map Prod.fst := by
  intro l
  induction l with
  | nil => intro k; simp [List.lookup]
  | cons p ps ih =>
    intro k
    obtain ⟨a, b⟩ := p
    by_cases h : k = a
    · subst h
      simp [List.lookup]
    · have hbeq : (k == a) = false := by simp [h]
      simp [List.lookup, hbeq, ih, h]

theorem to_request_eq (row : List (String × String)) : to_request row =
    (if (normalizeRow row).all (fun p => sixFields.contains p.fst) then
      match (normalizeRow row).lookup "start_date_time",
        (normalizeRow row).lookup "end_date_time",
        (normalizeRow row).lookup "location",
        (normalizeRow row).lookup "format",
        (normalizeRow row).lookup "units",
        (normalizeRow row).lookup "results_location" with
      | some a, some b, some c, some d, some e, some f =>
        some ⟨a, b, c, d, e, f⟩
      | _, _, _, _, _, _ => none
    else none) :=
  rfl

theorem to_request_isSome (row : List (String × String)) :
    (to_request row).isSome = true ↔
      ((normalizeRow row).all (fun p => sixFields.contains p.fst) = true ∧
       ∀ f ∈ sixFields, ((normalizeRow row).lookup f).isSome = true) := by
  rw [to_request_eq]
  by_cases hall : (normalizeRow row).all (fun p => sixFields.contains p.fst) = true
  · rw [if_pos hall]
    cases h1 : (normalizeRow row).lookup "start_date_time" with
    | none =>
      simp only [h1]
      constructor
      · intro hfalse; simp at hfalse
      · rintro ⟨_, hfor⟩
        have := hfor "start_date_time" (by simp [sixFields])
        rw [h1] at this
        simp at this
    | some v1 =>
    cases h2 : (normalizeRow row).lookup "end_date_time" with
    | none =>
      simp only [h1, h2]
      constructor
      · intro hfalse; simp at hfalse
      · rintro ⟨_, hfor⟩
        have := hfor "end_date_time" (by simp [sixFields])
        rw [h2] at this
        simp at this
    | some v2 =>
    cases h3 : (normalizeRow row).lookup "location" with
    | none =>
      simp only [h1, h2, h3]
      constructor
      · intro hfalse; simp at hfalse
      · rintro ⟨_, hfor⟩
        have := hfor "location" (by simp [sixFields])
        rw [h3] at this
        simp at this
    | some v3 =>
    cases h4 : (normalizeRow row).lookup "format" with
    | none =>
      simp only [h1, h2, h3, h4]
      constructor
      · intro hfalse; simp at hfalse
      · rintro ⟨_, hfor⟩
        have := hfor "format" (by simp [sixFields])
        rw [h4] at this
        simp at this
    | some v4 =>
    cases h5 : (normalizeRow row).lookup "units" with
    | none =>
      simp only [h1, h2, h3, h4, h5]
      constructor
      · intro hfalse; simp at hfalse
      · rintro ⟨_, hfor⟩
        have := hfor "units" (by simp [sixFields])
        rw [h5] at this
        simp at this
    | some v5 =>
    cases h6 : (normalizeRow row).lookup "results_location" with
    | none =>
      simp only [h1, h2, h3, h4, h5, h6]
      constructor
      · intro hfalse; simp at hfalse
      · rintro ⟨_, hfor⟩
        have := hfor "results_location" (by simp [sixFields])
        rw [h6] at this
        simp at this
    | some v6 =>
      simp only [h1, h2, h3, h4, h5, h6]
      constructor
      · intro _
        refine ⟨hall, ?_⟩
        intro f hf
        simp only [sixFields, List.mem_cons, List.mem_singleton] at hf
        rcases hf with rfl | rfl | rfl | rfl | rfl | hf
        · rw [h1]; rfl
        · rw [h2]; rfl
        · rw [h3]; rfl
        · rw [h4]; rfl
        · rw [h5]; rfl
        · simp at hf
          rw [hf, h6]
          rfl
      · intro _
        rfl
  · rw [if_neg hall]
    constructor
    · intro hfalse; simp at hfalse
    · rintro ⟨h, _⟩
      exact absurd h hall

/-! ## Event projections -/

/-- The job ids polled, in order of the `get_status` calls. -/
def polledIds (ev : List Event) : List String :=
  ev.filterMap (fun e => match e with
    | .polled i => some i
    | _ => none)

/-- The completion notices emitted, in order, as
`(jobId, rowsReturned, usage)` triples. -/
def completionNotices (ev : List Event) : List (String × Nat × Nat) :=
  ev.filterMap (fun e => match e with
    | .completed c r u => some (c, r, u)
    | _ => none)

/-- The status snapshot the next poll of this job will return (the job's own
last-known snapshot when the script is exhausted; unused in that case). -/
def headSnapshot (j : Job) : JobInfo :=
  match j.polls with
  | .ok i :: _ => i
  | _ => j.info

theorem jobHeadGood_shape (j : Job) (h : jobHeadGood j = true) :
    ∃ jid i tl st, j.info.jobId = some jid ∧ j.polls = RemoteResp.ok i :: tl ∧
      i.jobStatus = some st ∧
      (st = "complete" → i.jobId.isSome = true) ∧
      (st = "error" → i.jobId.isSome = true ∧ i.error.isSome = true) := by
  rw [jobHeadGood] at h
  obtain ⟨hid, hrest⟩ := Bool.and_eq_true_iff.mp h
  obtain ⟨jid, hjid⟩ := Option.isSome_iff_exists.mp hid
  cases hpolls : j.polls with
  | nil => rw [hpolls] at hrest; simp at hrest
  | cons hd tl =>
    cases hd with
    | fail e => rw [hpolls] at hrest; simp at hrest
    | ok i =>
      simp only [hpolls] at hrest
      cases hstat : i.jobStatus with
      | none => simp only [hstat] at hrest; simp at hrest
      | some st =>
        simp only [hstat] at hrest
        refine ⟨jid, i, tl, st, hjid, rfl, hstat, ?_, ?_⟩
        · intro hc
          rwa [if_pos hc] at hrest
        · intro he
          by_cases hc : st = "complete"
          · rw [hc] at he; simp at he
          · rw [if_neg hc, if_pos he] at hrest
            exact Bool.and_eq_true_iff.mp hrest

theorem jobEvents_polled (j : Job) (h : jobHeadGood j = true) :
    polledIds (jobEvents j) = [j.info.jobId.getD ""] := by
  obtain ⟨jid, i, tl, st, hjid, hpolls, hstat, _, _⟩ := jobHeadGood_shape j h
  rw [jobEvents]
  simp only [hpolls, hstat]
  by_cases hc : st = "complete"
  · rw [if_pos hc]; rfl
  · rw [if_neg hc]
    by_cases he : st = "error"
    · rw [if_pos he]; rfl
    · rw [if_neg he]; rfl

theorem jobEvents_completions (j : Job) (h : jobHeadGood j = true) :
    completionNotices (jobEvents j) =
      if jobRetiredComplete j then
        [((headSnapshot j).jobId.getD "", (headSnapshot j).rowsReturned.getD 0,
          (headSnapshot j).usage.getD 0)]
      else [] := by
  obtain ⟨jid, i, tl, st, hjid, hpolls, hstat, hcid, _⟩ := jobHeadGood_shape j h
  rw [jobEvents]
  simp only [hpolls, hstat]
  have hsnap : headSnapshot j = i := by rw [headSnapshot]; simp [hpolls]
  by_cases hc : st = "complete"
  · rw [if_pos hc]
    have hrc : jobRetiredComplete j = true := by
      simp [jobRetiredComplete, hpolls, hstat, hc]
    rw [hrc, if_pos rfl, hsnap]
    rfl
  · rw [if_neg hc]
    have hrc : jobRetiredComplete j = false := by
      simp [jobRetiredComplete, hpolls, hstat, hc]
    rw [hrc]
    by_cases he : st = "error"
    · rw [if_pos he]
      simp [completionNotices]
    · rw [if_neg he]
      simp [completionNotices]

theorem jobSurvivor_form (j : Job) (h : jobHeadGood j = true) :
    jobSurvivor j =
      if jobRetiredComplete j || jobRetiredError j then none
      else some { j with info := headSnapshot j, polls := j.polls.tail } := by
  obtain ⟨jid, i, tl, st, hjid, hpolls, hstat, _, _⟩ := jobHeadGood_shape j h
  have hsnap : headSnapshot j = i := by rw [headSnapshot]; simp [hpolls]
  rw [jobSurvivor]
  simp only [hpolls, hstat]
  by_cases hc : st = "complete"
  · have hrc : jobRetiredComplete j = true := by
      simp [jobRetiredComplete, hpolls, hstat, hc]
    rw [if_pos hc, hrc]
    simp
  · have hrc : jobRetiredComplete j = false := by
      simp [jobRetiredComplete, hpolls, hstat, hc]
    rw [if_neg hc]
    by_cases he : st = "error"
    · have hre : jobRetiredError j = true := by
        simp [jobRetiredError, hpolls, hstat, he]
      rw [if_pos he, hre]
      simp
    · have hre : jobRetiredError j = false := by
        simp [jobRetiredError, hpolls, hstat, he]
      rw [if_neg he, hrc, hre]
      simp [hsnap, hpolls]

theorem polledIds_sweepEvents : ∀ (jobs : List Job),
    (∀ j ∈ jobs, jobHeadGood j = true) →
    polledIds (sweepEvents jobs) = jobs.map (fun j => j.info.jobId.getD "") := by
  intro jobs
  induction jobs with
  | nil => intro _; rfl
  | cons j rest ih =>
    intro h
    rw [sweepEvents_cons]
    rw [polledIds, List.filterMap_append]
    rw [show List.filterMap _ (jobEvents j) = polledIds (jobEvents j) from rfl]
    rw [show List.filterMap _ (sweepEvents rest) = polledIds (sweepEvents rest)
      from rfl]
    rw [jobEvents_polled j (h j (by simp)), ih fun x hx => h x (by simp [hx])]
    rfl

theorem completionNotices_sweepEvents : ∀ (jobs : List Job),
    (∀ j ∈ jobs, jobHeadGood j = true) →
    completionNotices (sweepEvents jobs) =
      (jobs.filter jobRetiredComplete).map (fun j =>
        ((headSnapshot j).jobId.getD "", (headSnapshot j).rowsReturned.getD 0,
         (headSnapshot j).usage.getD 0)) := by
  intro jobs
  induction jobs with
  | nil => intro _; rfl
  | cons j rest ih =>
    intro h
    rw [sweepEvents_cons]
    rw [completionNotices, List.filterMap_append]
    rw [show List.filterMap _ (jobEvents j) = completionNotices (jobEvents j)
      from rfl]
    rw [show List.filterMap _ (sweepEvents rest) =
      completionNotices (sweepEvents rest) from rfl]
    rw [jobEvents_completions j (h j (by simp)),
      ih fun x hx => h x (by simp [hx])]
    rw [List.filter_cons]
    by_cases hrc : jobRetiredComplete j = true
    · rw [if_pos (by simp [hrc]), if_pos hrc]
      rfl
    · rw [if_neg (by simp [hrc]), if_neg hrc]
      rfl

theorem sweepSurvivors_filter_form : ∀ (jobs : List Job),
    (∀ j ∈ jobs, jobHeadGood j = true) →
    sweepSurvivors jobs =
      (jobs.filter (fun j => !(jobRetiredComplete j || jobRetiredError j))).map
        (fun j => { j with info := headSnapshot j, polls := j.polls.tail }) := by
  intro jobs
  induction jobs with
  | nil => intro _; rfl
  | cons j rest ih =>
    intro h
    rw [sweepSurvivors_cons, jobSurvivor_form j (h j (by simp)),
      ih fun x hx => h x (by simp [hx])]
    rw [List.filter_cons]
    by_cases hr : (jobRetiredComplete j || jobRetiredError j) = true
    · rw [if_pos hr, if_neg (by simp [hr])]
      rfl
    · rw [if_neg hr, if_pos (by simp [Bool.not_eq_true] at hr; simp [hr])]
      rfl

/-- One unfolding of the drain loop on a non-empty working set. -/
theorem drain_phase_nonempty (fuel : Nat) (jobs : List Job) (hne : jobs ≠ [])
    (c e : Nat) (ev : List Event) :
    drain_phase (fuel + 1) jobs c e ev =
      (match clean_completed jobs with
       | (ev2, _, .raised err) => some (ev ++ ev2, .raised err)
       | (ev2, jobs2, .ok (nc, ne)) =>
         drain_phase fuel jobs2 (c + nc) (e + ne) (ev ++ ev2)) := by
  cases jobs with
  | nil => exact absurd rfl hne
  | cons j js => rw [drain_phase]

/-! ## Concrete scenario data used by witnesses and counterexamples -/

/-- Initial snapshot of job `J1`, as returned by a successful submission. -/
def wInfoRun : JobInfo := ⟨some "J1", some "running", none, none, none⟩

/-- A later non-terminal snapshot of `J1`. -/
def wInfoQueued : JobInfo := ⟨some "J1", some "queued", none, none, none⟩

/-- Terminal snapshot of `J1` with usage data. -/
def wInfoDone : JobInfo := ⟨some "J1", some "complete", some 42, some 1, none⟩

/-- The spec's sample request row. -/
def wReq : ArchiveRequest :=
  ⟨"2022-01-01", "2022-01-02", "40,-74", "json", "e", "s3://bucket/out"⟩

/-- A record that submits at once and completes on the second poll. -/
def wRecord : RecordEnv := ⟨wReq, [.ok wInfoRun], [.ok wInfoRun, .ok wInfoDone]⟩

/-- A plain HTTP 500 failure. -/
def wErr500 : HTTPError := ⟨500, [], "boom"⟩

/-- A 429 with `Retry-After: 5`. -/
def wErr429 : HTTPError := ⟨429, [("Retry-After", "5")], "slow down"⟩

/-- A 429 whose `Retry-After` is an HTTP-date, not an integer. -/
def wErr429Date : HTTPError :=
  ⟨429, [("Retry-After", "Wed, 21 Oct 2015 07:28:00 GMT")], "slow down"⟩

/-- Initial snapshot of job `J2`. -/
def wInfo2Run : JobInfo := ⟨some "J2", some "running", none, none, none⟩

/-- Terminal snapshot of `J2`, without usage fields. -/
def wInfo2Done : JobInfo := ⟨some "J2", some "complete", none, none, none⟩

/-- A record that submits fine but whose first poll fails with a 500. -/
def wRecPollFail : RecordEnv := ⟨wReq, [.ok wInfoRun], [.fail wErr500]⟩

/-- A record that submits fine and completes on the first poll. -/
def wRecOk : RecordEnv := ⟨wReq, [.ok wInfo2Run], [.ok wInfo2Done]⟩

/-- A record whose submission fails with a 500. -/
def wRecSubmitFail : RecordEnv := ⟨wReq, [.fail wErr500], []⟩

/-- An in-flight job whose next poll reports `queued`. -/
def wJob : Job := ⟨1, wReq, wInfoRun, [.ok wInfoQueued]⟩

/-- `wJob` as the sweep re-enqueues it. -/
def wJobAfter : Job := ⟨1, wReq, wInfoQueued, []⟩

/-- An in-flight job whose next poll fails with a 500. -/
def wJobBad : Job := ⟨1, wReq, wInfoRun, [.fail wErr500]⟩

/-- An in-flight job whose next poll reports `complete`. -/
def wJobDone : Job := ⟨1, wReq, wInfoRun, [.ok wInfoDone]⟩

/-! ## The claims -/

/-- C1: for every well-formed input record set of size N whose calls are
never rate-limited and answer every submission and poll (modelled by
`okRecord`: the first `post` answers, and an accepted job's polls answer
with well-formed snapshots ending in a terminal status), `run_jobs`
terminates with `completions + errors = N`; when moreover no submission
fails and no job reaches the remote `error` status (`goodRecord`),
`errors = 0`.  This covers both the no-failure bound and the general
"completions plus errors equals records processed" accounting, with errors
counting submission failures and `error`-status jobs. -/
theorem claim_C1 (records : List RecordEnv)
    (hok : ∀ r ∈ records, okRecord r = true) :
    ∃ ev tally, run_jobs records (totalPolls records) = some (ev, .ok tally) ∧
      tally.completions + tally.errors = records.length ∧
      ((∀ r ∈ records, goodRecord r = true) → tally.errors = 0) := by
  obtain ⟨ev, hrun⟩ := run_jobs_ok records hok
  refine ⟨ev, _, hrun, ?_, ?_⟩
  · exact countP_fate_partition records hok
  · intro hg
    exact countP_error_zero records hg

/-- Witness for C1: a single record submitting at once and completing on
its second poll. -/
theorem claim_C1_witness :
    ∃ ev tally, run_jobs [wRecord] (totalPolls [wRecord]) =
      some (ev, .ok tally) ∧
      tally.completions + tally.errors = [wRecord].length ∧
      ((∀ r ∈ [wRecord], goodRecord r = true) → tally.errors = 0) :=
  claim_C1 [wRecord] (by decide)

/-- C2 counterexample: the claim says a poll failure "propagates out of the
sweep and terminates the run (it is not recovered by the driver)".  In this
concrete run the first job's poll fails with a 500 during the
submission-phase sweep, yet the run continues (the driver's `except` clause
catches the `HTTPError`, counts one error and prints it — the
`handledError` event), processes the second record, and terminates
normally with tally `⟨1, 1⟩` rather than with an exception. -/
theorem claim_C2_counterexample :
    run_jobs [wRecPollFail, wRecOk] 5 =
      some ([.submitted "J1" 1, .polled "J1", .handledError 500 "boom",
             .submitted "J2" 2, .polled "J2", .completed "J2" 0 0],
            .ok ⟨1, 1⟩) := by
  decide

/-- C2 (amended): a poll failure is not caught at the per-job level inside
the sweep — `clean_completed` aborts at the failing job (later jobs are not
polled; the failing job is dropped) and the `HTTPError` propagates to the
caller.  During the drain phase this terminates the run with the error;
during the submission phase the driver's per-record `except` clause catches
it, counts one error, and continues with the next input row. -/
theorem claim_C2 :
    (∀ (pre : List Job) (bad : Job) (post : List Job) (bid : String)
       (e : HTTPError) (tl : List RemoteResp),
       (∀ j ∈ pre, jobHeadGood j = true) → bad.info.jobId = some bid →
       bad.polls = .fail e :: tl →
       clean_completed (pre ++ bad :: post) =
         (sweepEvents pre ++ [.polled bid], post ++ sweepSurvivors pre,
          .raised (.http e))) ∧
    (∀ (fuel : Nat) (pre : List Job) (bad : Job) (post : List Job)
       (bid : String) (e : HTTPError) (tl : List RemoteResp) (c er : Nat)
       (ev : List Event),
       (∀ j ∈ pre, jobHeadGood j = true) → bad.info.jobId = some bid →
       bad.polls = .fail e :: tl →
       drain_phase (fuel + 1) (pre ++ bad :: post) c er ev =
         some (ev ++ (sweepEvents pre ++ [.polled bid]),
           .raised (.http e))) ∧
    (∀ (r : RecordEnv) (rest : List RecordEnv) (line : Nat) (jobs : List Job)
       (c er : Nat) (ev ev2 : List Event) (info : JobInfo) (jid : String)
       (ptl : List RemoteResp) (jobs2 : List Job) (e : HTTPError),
       r.postScript = .ok info :: ptl → info.jobId = some jid →
       clean_completed (jobs ++ [⟨line, r.request, info, r.pollScript⟩]) =
         (ev2, jobs2, .raised (.http e)) →
       submit_phase (r :: rest) line jobs c er ev =
         submit_phase rest (line + 1) jobs2 c (er + 1)
           ((ev ++ [.submitted jid line]) ++
             (ev2 ++ [.handledError e.statusCode e.body]))) := by
  refine ⟨?_, ?_, ?_⟩
  · intro pre bad post bid e tl hgood hbid hpolls
    exact clean_completed_abort pre bad post hgood bid hbid e tl hpolls
  · intro fuel pre bad post bid e tl c er ev hgood hbid hpolls
    rw [drain_phase_nonempty fuel (pre ++ bad :: post) (by simp) c er ev]
    rw [clean_completed_abort pre bad post hgood bid hbid e tl hpolls]
  · intro r rest line jobs c er ev ev2 info jid ptl jobs2 e hpost hjid hsweep
    have hpwr : post_with_retry r.postScript = some (0, .ok info) := by
      rw [hpost, post_with_retry]
    rw [submit_phase]
    simp only [hpwr, hjid, hsweep]
    simp [List.append_assoc]

/-- Witness for C2: a one-job working set whose poll fails; the sweep
returns the exception, having polled the job and dropped it. -/
theorem claim_C2_witness :
    clean_completed [wJobBad] =
      ([.polled "J1"], [], .raised (.http wErr500)) := by
  have := claim_C2.1 [] wJobBad [] "J1" wErr500 [] (by simp) rfl rfl
  simpa [sweepEvents, sweepSurvivors] using this

/-- C3 counterexample: the claim says every non-terminal job is
"re-enqueued unchanged", but `clean_completed` re-assigns `job.info` to the
freshly polled snapshot before re-enqueueing: after a sweep in which the
poll reports `queued`, the re-enqueued job differs from the original (its
last-known status snapshot changed from `running` to `queued`). -/
theorem claim_C3_counterexample :
    (clean_completed [wJob]).2.1.length = 1 ∧
    (clean_completed [wJob]).2.1 ≠ [wJob] ∧
    (clean_completed [wJob]).2.1.map (fun j => j.info) ≠ [wJob.info] := by
  decide

/-- C3 (amended): in every sweep over a working set whose polls all answer
with well-formed snapshots, exactly the jobs present at the start are each
polled exactly once, in oldest-enqueued-first (deque) order; jobs whose
polled status is `complete` or `error` are removed and counted; every
other job is re-enqueued behind all originally-present jobs with its
status snapshot updated to the polled snapshot (identifying fields
unchanged).  Re-enqueued jobs are not polled again within the sweep (each
id occurs exactly once in the poll trace). -/
theorem claim_C3 (jobs : List Job)
    (h : ∀ j ∈ jobs, jobHeadGood j = true) :
    clean_completed jobs = (sweepEvents jobs, sweepSurvivors jobs,
      .ok (sweepCC jobs, sweepEC jobs)) ∧
    polledIds (sweepEvents jobs) = jobs.map (fun j => j.info.jobId.getD "") ∧
    sweepSurvivors jobs =
      (jobs.filter (fun j => !(jobRetiredComplete j || jobRetiredError j))).map
        (fun j => { j with info := headSnapshot j, polls := j.polls.tail }) ∧
    sweepCC jobs = (jobs.filter jobRetiredComplete).length ∧
    sweepEC jobs = (jobs.filter jobRetiredError).length := by
  refine ⟨clean_completed_spec jobs h, polledIds_sweepEvents jobs h,
    sweepSurvivors_filter_form jobs h, ?_, ?_⟩
  · exact List.countP_eq_length_filter _ _
  · exact List.countP_eq_length_filter _ _

/-- Witness for C3: a one-job sweep whose poll reports `queued`. -/
theorem claim_C3_witness :
    clean_completed [wJob] = (sweepEvents [wJob], sweepSurvivors [wJob],
      .ok (sweepCC [wJob], sweepEC [wJob])) ∧
    polledIds (sweepEvents [wJob]) =
      [wJob].map (fun j => j.info.jobId.getD "") ∧
    sweepSurvivors [wJob] =
      ([wJob].filter (fun j => !(jobRetiredComplete j || jobRetiredError j))).map
        (fun j => { j with info := headSnapshot j, polls := j.polls.tail }) ∧
    sweepCC [wJob] = ([wJob].filter jobRetiredComplete).length ∧
    sweepEC [wJob] = ([wJob].filter jobRetiredError).length :=
  claim_C3 [wJob] (by decide)

/-- C4: `post_with_retry` never surfaces a rate-limit to its caller (no
result ever carries a 429 `HTTPError`); it retries indefinitely while the
service keeps rate-limiting (any script of well-formed 429s leaves the loop
still running — there is no retry limit); on each 429 it sleeps exactly the
server-suggested seconds — the parsed `Retry-After` value, or 10 when the
header is absent — with no backoff growth (the equations add exactly that
one wait per retry); and given `RateLimited{5}` followed by a success the
job is submitted with a total block of 5 seconds (≥ 5) before the retry. -/
theorem claim_C4 :
    (∀ (script : List RemoteResp) (t : Nat) (e : HTTPError),
      post_with_retry script = some (t, .raised (.http e)) →
      e.statusCode ≠ 429) ∧
    (∀ script : List RemoteResp, (∀ r ∈ script, retryEntry r = true) →
      post_with_retry script = none) ∧
    (∀ (e : HTTPError) (rest : List RemoteResp), e.statusCode = 429 →
      headerGet e.headers "Retry-After" = none →
      post_with_retry (.fail e :: rest) =
        (post_with_retry rest).map (fun p => (10 + p.1, p.2))) ∧
    (∀ (e : HTTPError) (rest : List RemoteResp) (s : String) (n : Nat),
      e.statusCode = 429 → headerGet e.headers "Retry-After" = some s →
      pyInt? s = some (n : Int) →
      post_with_retry (.fail e :: rest) =
        (post_with_retry rest).map (fun p => (n + p.1, p.2))) ∧
    (∀ (e : HTTPError) (rest : List RemoteResp) (info : JobInfo),
      e.statusCode = 429 → headerGet e.headers "Retry-After" = some "5" →
      post_with_retry (.fail e :: .ok info :: rest) = some (5, .ok info) ∧
      5 ≥ 5) := by
  refine ⟨post_with_retry_no_429, post_with_retry_indefinite,
    post_with_retry_429_default, post_with_retry_429_wait, ?_⟩
  intro e rest info h429 hhdr
  refine ⟨?_, le_refl 5⟩
  have h5 := post_with_retry_429_wait e (.ok info :: rest) "5" 5 h429 hhdr
    (by decide)
  rw [h5]
  rfl

/-- Witness for C4: `Retry-After: 5` then a success submits the job after a
5-second block. -/
theorem claim_C4_witness :
    post_with_retry [.fail wErr429, .ok wInfoRun] = some (5, .ok wInfoRun) ∧
    5 ≥ 5 :=
  claim_C4.2.2.2.2 wErr429 [] wInfoRun rfl (by decide)

/-- C5: a submission answered with a non-429 non-success response is
counted as one error immediately and handled (`handledError` printed); no
submission notice is emitted for it, the job never enters the working set,
no poll call is ever made for it (the loop's state carries nothing of the
record onward, so its poll script is never consulted), and processing
continues with the next input row instead of aborting the run. -/
theorem claim_C5 (r : RecordEnv) (rest : List RecordEnv) (line : Nat)
    (jobs : List Job) (c er : Nat) (ev : List Event) (e : HTTPError)
    (tl : List RemoteResp)
    (hpost : r.postScript = .fail e :: tl) (h429 : e.statusCode ≠ 429) :
    submit_phase (r :: rest) line jobs c er ev =
      submit_phase rest (line + 1) jobs c (er + 1)
        (ev ++ [.handledError e.statusCode e.body]) := by
  have hpwr : post_with_retry r.postScript =
      some (0, .raised (.http e)) := by
    rw [hpost, post_with_retry]
    simp [h429]
  rw [submit_phase]
  simp only [hpwr]

/-- Witness for C5: one record whose submission is answered with a 500. -/
theorem claim_C5_witness :
    submit_phase [wRecSubmitFail] 1 [] 0 0 [] =
      submit_phase [] 2 [] 0 1 [.handledError 500 "boom"] := by
  have := claim_C5 wRecSubmitFail [] 1 [] 0 0 [] wErr500 [] rfl (by decide)
  simpa using this

/-- C6: after any sweep that returns normally, every job in the working
set has a non-terminal last-known status — neither `complete` nor
`error` (each was re-enqueued only after its freshly polled status
fell outside the terminal set). -/
theorem claim_C6 (jobs : List Job) (ev' : List Event) (jobs' : List Job)
    (cc ec : Nat)
    (h : clean_completed jobs = (ev', jobs', .ok (cc, ec))) :
    ∀ j ∈ jobs', j.info.jobStatus ≠ some "complete" ∧
      j.info.jobStatus ≠ some "error" :=
  clean_completed_nonterminal jobs ev' jobs' cc ec h

/-- Witness for C6: the job re-enqueued after polling `queued` is
non-terminal. -/
theorem claim_C6_witness :
    wJobAfter.info.jobStatus ≠ some "complete" ∧
    wJobAfter.info.jobStatus ≠ some "error" :=
  claim_C6 [wJob] [.polled "J1"] [wJobAfter] 0 0 (by decide) wJobAfter
    (by simp)

/-- C7: `normalize_key` is idempotent on every string, and is insensitive
to case and to the separators underscore, hyphen and space: the three
spellings of the start-time header all normalize to the same logical field
name `start_date_time`. -/
theorem claim_C7 :
    (∀ k : String, normalize_key (normalize_key k) = normalize_key k) ∧
    normalize_key "Start_Date_Time" = normalize_key "start-date-time" ∧
    normalize_key "START DATE TIME" = normalize_key "start-date-time" ∧
    normalize_key "Start_Date_Time" = "start_date_time" := by
  refine ⟨normalize_key_idem, ?_, ?_, ?_⟩ <;> decide

/-- C8: in a sweep over a working set whose polls all answer with
well-formed snapshots, the completion notices emitted are exactly one per
job whose polled status is `complete`, in order, each carrying the
rows-returned and usage values of that status snapshot with zero defaults
when absent; and the sweep's completion counter equals the number of such
jobs. -/
theorem claim_C8 (jobs : List Job)
    (h : ∀ j ∈ jobs, jobHeadGood j = true) :
    completionNotices (clean_completed jobs).1 =
      (jobs.filter jobRetiredComplete).map (fun j =>
        ((headSnapshot j).jobId.getD "", (headSnapshot j).rowsReturned.getD 0,
         (headSnapshot j).usage.getD 0)) ∧
    (clean_completed jobs).2.2 =
      .ok ((jobs.filter jobRetiredComplete).length, sweepEC jobs) := by
  have hspec := clean_completed_spec jobs h
  constructor
  · rw [hspec]
    exact completionNotices_sweepEvents jobs h
  · rw [hspec]
    rw [show sweepCC jobs = (jobs.filter jobRetiredComplete).length from
      List.countP_eq_length_filter _ _]

/-- Witness for C8: one job completing with `rowsReturned = 42` and
`usage = 1` yields exactly one notice carrying those values. -/
theorem claim_C8_witness :
    completionNotices (clean_completed [wJobDone]).1 =
      ([wJobDone].filter jobRetiredComplete).map (fun j =>
        ((headSnapshot j).jobId.getD "", (headSnapshot j).rowsReturned.getD 0,
         (headSnapshot j).usage.getD 0)) ∧
    (clean_completed [wJobDone]).2.2 =
      .ok (([wJobDone].filter jobRetiredComplete).length, sweepEC [wJobDone]) :=
  claim_C8 [wJobDone] (by decide)

/-- C9: `to_request` succeeds on a row exactly when the set of the row's
normalized header names is precisely the six required field names — any
missing required field or any extra or unrecognized column makes it fail
(the namedtuple constructor rejects both missing and unexpected
keywords). -/
theorem claim_C9 (row : List (String × String)) :
    (to_request row).isSome = true ↔
      ((row.map (fun p => normalize_key p.fst)).all
        (fun k => sixFields.contains k) = true ∧
       sixFields.all (fun f =>
         (row.map (fun p => normalize_key p.fst)).contains f) = true) := by
  have hkeys : ∀ x, x ∈ (normalizeRow row).map Prod.fst ↔
      x ∈ row.map (fun p => normalize_key p.fst) := by
    intro x
    rw [normalizeRow, normalizeRow_keys]
    simp
  rw [to_request_isSome]
  constructor
  · rintro ⟨hall, hlook⟩
    constructor
    · apply List.all_eq_true.mpr
      intro x hx
      obtain ⟨p, hp, hpx⟩ := List.mem_map.mp ((hkeys x).mpr hx)
      have := List.all_eq_true.mp hall p hp
      rw [hpx] at this
      exact this
    · apply List.all_eq_true.mpr
      intro f hf
      have hmem := (hkeys f).mp
        ((lookup_isSome_iff_mem_keys (normalizeRow row) f).mp (hlook f hf))
      exact List.elem_iff.mpr hmem
  · rintro ⟨hsub, hsup⟩
    constructor
    · apply List.all_eq_true.mpr
      intro p hp
      have hx : p.fst ∈ row.map (fun q => normalize_key q.fst) :=
        (hkeys p.fst).mp (List.mem_map.mpr ⟨p, hp, rfl⟩)
      obtain ⟨q, hq, hqx⟩ := List.mem_map.mp hx
      have := List.all_eq_true.mp hsub _ (List.mem_map.mpr ⟨q, hq, rfl⟩)
      rw [hqx] at this
      exact this
    · intro f hf
      rw [lookup_isSome_iff_mem_keys]
      refine (hkeys f).mpr ?_
      exact List.elem_iff.mp (List.all_eq_true.mp hsup f hf)

/-- Witness for C9: a row with all six fields in mixed spellings succeeds;
the equivalence holds at this concrete row. -/
theorem claim_C9_witness :
    (to_request [("Start_Date_Time", "a"), ("endDateTime", "b"),
      ("LOCATION", "c"), ("format", "d"), ("units", "e"),
      ("results location", "f")]).isSome = true ↔
      (([("Start_Date_Time", "a"), ("endDateTime", "b"), ("LOCATION", "c"),
         ("format", "d"), ("units", "e"), ("results location", "f")].map
          (fun p => normalize_key p.fst)).all
        (fun k => sixFields.contains k) = true ∧
       sixFields.all (fun f =>
         ([("Start_Date_Time", "a"), ("endDateTime", "b"), ("LOCATION", "c"),
           ("format", "d"), ("units", "e"), ("results location", "f")].map
            (fun p => normalize_key p.fst)).contains f) = true) :=
  claim_C9 [("Start_Date_Time", "a"), ("endDateTime", "b"), ("LOCATION", "c"),
    ("format", "d"), ("units", "e"), ("results location", "f")]

/-- C10: when a 429's `Retry-After` header is present but is not a decimal
integer string (for example an HTTP-date), `post_with_retry` raises the
`int()` conversion error instead of sleeping and retrying — the result is
independent of the rest of the script, so no retry is attempted; and the
wait-then-retry path is taken whenever the header is absent or parses as a
non-negative integer (sleeping exactly the parsed value, or the default
10). -/
theorem claim_C10 :
    (∀ (e : HTTPError) (rest : List RemoteResp) (s : String),
      e.statusCode = 429 → headerGet e.headers "Retry-After" = some s →
      pyInt? s = none →
      post_with_retry (.fail e :: rest) =
        some (0, .raised (.valueError s))) ∧
    (∀ (e : HTTPError) (rest : List RemoteResp), e.statusCode = 429 →
      retryAfterOk (headerGet e.headers "Retry-After") = true →
      ∃ n : Int, 0 ≤ n ∧
        pyInt? ((headerGet e.headers "Retry-After").getD "10") = some n ∧
        post_with_retry (.fail e :: rest) =
          (post_with_retry rest).map (fun p => (n.toNat + p.1, p.2))) := by
  constructor
  · intro e rest s h429 hhdr hparse
    rw [post_with_retry, if_pos (by simp [h429]), hhdr]
    simp only [Option.getD_some]
    simp only [hparse]
  · intro e rest h429 hra
    cases hget : headerGet e.headers "Retry-After" with
    | none =>
      refine ⟨10, by omega, by decide, ?_⟩
      have := post_with_retry_429_default e rest h429 hget
      rw [this]
      rfl
    | some s =>
      rw [hget] at hra
      rw [retryAfterOk] at hra
      cases hpi : pyInt? s with
      | none => simp only [hpi] at hra; simp at hra
      | some n =>
        simp only [hpi] at hra
        simp only [decide_eq_true_eq] at hra
        refine ⟨n, hra, by simp [hpi], ?_⟩
        have hn : ((n.toNat : Nat) : Int) = n := Int.toNat_of_nonneg hra
        have := post_with_retry_429_wait e rest s n.toNat h429 hget
          (by rw [hn]; exact hpi)
        rw [this]

/-- Witness for C10: an HTTP-date `Retry-After` raises the conversion
error at once. -/
theorem claim_C10_witness :
    post_with_retry [.fail wErr429Date] =
      some (0, .raised (.valueError "Wed, 21 Oct 2015 07:28:00 GMT")) :=
  claim_C10.1 wErr429Date [] "Wed, 21 Oct 2015 07:28:00 GMT" rfl (by decide)
    (by decide)

end HodArchive
